import Mathlib

/-!
Verification of the QtNetworkCrumbs service-discovery engine.

This file gives a shallow embedding, in Lean 4, of the parts of the code base
that the checked properties talk about:

* the mDNS wire codec (`src/mdns/mdnsmessage.cpp` / `.h`): name decoding with
  compression pointers, question encoding, indexed section accessors;
* the mDNS response interpretation (`src/mdns/mdnsresolver.cpp`,
  `Resolver::onReadyRead`) and host-name domain handling;
* the multicast resolver runtime's self-echo filter
  (`src/qnc/qncresolver.cpp`, `MulticastResolver::isOwnMessage`);
* the SSDP/HTTP-in-UDP parser (`src/http/httpparser.cpp`,
  `src/ssdp/ssdpresolver.cpp`): status line and header parsing, expiry
  computation, NOTIFY classification.

Byte buffers (`QByteArray`) are modelled as `List Nat` with each element a
byte value.  Machine integers are modelled as `Nat` with explicit reductions
where the code truncates.  Functions that loop over buffer offsets are
written with an explicit fuel argument so that every definition is a plain
structural recursion that the kernel can evaluate on concrete inputs;
`Option` results make out-of-bounds reads (undefined behaviour in the C++)
and exhausted fuel (non-termination of the C++) explicit as `none`.
-/

namespace QNC

/-- One byte of a `QByteArray`, read with `QByteArray::at`.  An out-of-range
access is undefined behaviour in C++; this total model returns 0 there, and
every theorem below that relies on `byteAt` only evaluates it in bounds. -/
def byteAt (d : List Nat) (i : Nat) : Nat := d.getD i 0

/-- Big-endian 16-bit read, as `qFromBigEndian<quint16>` in `mdnsmessage.cpp`. -/
def u16at (d : List Nat) (i : Nat) : Nat := byteAt d i * 256 + byteAt d (i + 1)

/-- Big-endian 32-bit read, as `qFromBigEndian<quint32>`. -/
def u32at (d : List Nat) (i : Nat) : Nat :=
  ((byteAt d i * 256 + byteAt d (i + 1)) * 256 + byteAt d (i + 2)) * 256 + byteAt d (i + 3)

/-- Big-endian 16-bit in-place write, as `qToBigEndian` via `Entry::setU16`. -/
def writeU16 (d : List Nat) (i : Nat) (v : Nat) : List Nat :=
  (d.set i (v / 256 % 256)).set (i + 1) (v % 256)

/-- `QByteArray::mid(start, len)`: the clamped slice. -/
def mid (d : List Nat) (start len : Nat) : List Nat := (d.drop start).take len

end QNC

namespace MDNS

open QNC

/-! ### Name decoding (`MDNS::Name`, `MDNS::Label`)

A name is a pair of a shared buffer and an offset.  `Label::size()` is
`1 + u8(offset)` for a literal label (top bits `00`), 2 for a compression
pointer (top bits `11`) and 1 otherwise; `Label::labelLength()` is the length
byte for a literal label and 0 otherwise; `Label::pointer()` is
`u16(offset) & 0x3fff`. -/

/-- `Name::size()`: total bytes occupied by the name at `off`, adding
`Label::size()` for each label and stopping at the first label whose
`labelLength()` is zero (terminator, pointer, or reserved length byte).
The loop in the C++ advances by at least one byte per step; the fuel in this
structural rendering is instantiated at `d.length + 1` by `nameSize`, which
is always enough because reads past the buffer are modelled as 0 (a
terminator) by `byteAt`. -/
def nameSizeFuel (d : List Nat) : Nat → Nat → Nat
  | 0, _ => 0
  | fuel + 1, off =>
    let b := byteAt d off
    if 192 ≤ b then 2
    else if b = 0 then 1
    else if b ≤ 63 then (1 + b) + nameSizeFuel d fuel (off + 1 + b)
    else 1

/-- `Name::size()` with the always-sufficient fuel. -/
def nameSize (d : List Nat) (off : Nat) : Nat := nameSizeFuel d (d.length + 1) off

/-- The pieces that `Name::toByteArray()` joins with `'.'`: every literal
label contributes its bytes, and a compression pointer contributes the
complete text of the name at the pointer target as one final piece.  A
`none` result means the C++ either read a length byte outside the buffer
(undefined behaviour) or followed compression pointers forever (the code has
no follow bound), so no amount of fuel makes the recursion finish. -/
def namePiecesFuel (d : List Nat) : Nat → Nat → Option (List (List Nat))
  | 0, _ => none
  | fuel + 1, off =>
    match d.get? off with
    | none => none
    | some b =>
      if 192 ≤ b then
        match d.get? (off + 1) with
        | none => none
        | some b2 =>
          match namePiecesFuel d fuel (b % 64 * 256 + b2) with
          | none => none
          | some ps => some [List.intercalate [46] ps]
      else if b = 0 then some []
      else if b ≤ 63 then
        match namePiecesFuel d fuel (off + 1 + b) with
        | none => none
        | some ps => some (mid d (off + 1) b :: ps)
      else some []

/-- `Name::toByteArray()` under a fuel bound: the dotted text of the name. -/
def nameTextFuel (d : List Nat) (fuel off : Nat) : Option (List Nat) :=
  (namePiecesFuel d fuel off).map (List.intercalate [46])

/-- `Name::toByteArray()` with fuel `d.length + 1`, which is sufficient for
every name whose pointer chain terminates within the buffer. -/
def nameText (d : List Nat) (off : Nat) : Option (List Nat) :=
  nameTextFuel d (d.length + 1) off

/-! ### Name encoding (`makeLabelList`, `makeByteArray`, `Name::Name`) -/

/-- One entry of `makeLabelList`: `static_cast<char>(s.length()) + s`.  The
`char` cast truncates to a byte. -/
def encodeLabel (l : List Nat) : List Nat := (l.length % 256) :: l

/-- `makeByteArray (makeLabelList strings)`: each label length-prefixed,
then the terminating zero label `QByteArray{"", 1}`. -/
def encodeName (labels : List (List Nat)) : List Nat :=
  (labels.flatMap encodeLabel) ++ [0]

/-- `QByteArray::split('.')`: split at every dot, keeping empty fields. -/
def splitDot (s : List Nat) : List (List Nat) := s.splitOn 46

/-! ### Entries (`MDNS::Entry` and its subclasses)

An `Entry` is a shared byte buffer plus an offset.  The default-constructed
entry (`Question{}`, `Resource{}`, `ServiceRecord{}`) holds a null
`QByteArray`, modelled by the empty list; `Entry::isNull()` is
`m_data.isNull()`. -/

structure Entry where
  data : List Nat
  offset : Nat
deriving DecidableEq, Repr

/-- `Entry::isNull()`. -/
def Entry.isNull (e : Entry) : Bool := e.data.isEmpty

/-- A default-constructed entry such as `Question{}` or `Resource{}`. -/
def nullEntry : Entry := ⟨[], 0⟩

/-! ### Question accessors (`MDNS::Question`) -/

namespace Question

/-- `Question::fieldsOffset()`: `offset() + name().size()`. -/
def fieldsOffset (e : Entry) : Nat := e.offset + nameSize e.data e.offset

/-- `Question::type()`. -/
def type (e : Entry) : Nat := u16at e.data (fieldsOffset e)

/-- `Question::networkClass()`: the class field masked with `0x7ff`. -/
def networkClass (e : Entry) : Nat := u16at e.data (fieldsOffset e + 2) % 2048

/-- `Question::flush()`: the top bit of the class field. -/
def flush (e : Entry) : Bool := 32768 ≤ u16at e.data (fieldsOffset e + 2)

/-- `Question::size()`: `name().size() + SizeOfFields`. -/
def size (e : Entry) : Nat := nameSize e.data e.offset + 4

/-- `Question::nextOffset()`. -/
def nextOffset (e : Entry) : Nat := e.offset + size e

/-- `Question::name().toByteArray()`. -/
def nameString (e : Entry) : Option (List Nat) := nameText e.data e.offset

end Question

/-! ### Resource accessors (`MDNS::Resource`, `MDNS::ServiceRecord`) -/

namespace Resource

/-- `Resource::fieldsOffset()`. -/
def fieldsOffset (e : Entry) : Nat := e.offset + nameSize e.data e.offset

/-- `Resource::type()`. -/
def type (e : Entry) : Nat := u16at e.data (fieldsOffset e)

/-- `Resource::dataSize()`. -/
def dataSize (e : Entry) : Nat := u16at e.data (fieldsOffset e + 8)

/-- `Resource::dataOffset()`: `fieldsOffset() + SizeOfFields` with
`SizeOfFields = 10`. -/
def dataOffset (e : Entry) : Nat := fieldsOffset e + 10

/-- `Resource::size()`: `name().size() + SizeOfFields + dataSize()`. -/
def size (e : Entry) : Nat := nameSize e.data e.offset + 10 + dataSize e

/-- `Resource::nextOffset()`. -/
def nextOffset (e : Entry) : Nat := e.offset + size e

/-- `Resource::name().toByteArray()`: the owner name's dotted text, the key
used by `Resolver::onReadyRead`. -/
def nameKey (e : Entry) : Option (List Nat) := nameText e.data e.offset

/-- `Resource::address()`: a `QHostAddress` for an A record of 4 data bytes
(IPv4, from the 32-bit value) or an AAAA record of 16 data bytes (IPv6, from
the raw bytes); the null address otherwise, modelled by `none`. -/
def address (e : Entry) : Option (Nat ⊕ List Nat) :=
  if type e = 1 ∧ dataSize e = 4 then some (.inl (u32at e.data (dataOffset e)))
  else if type e = 28 ∧ dataSize e = 16 then some (.inr (mid e.data (dataOffset e) 16))
  else none

/-- `Resource::service()`: a `ServiceRecord` rooted at the data bytes for an
SRV record with at least 8 data bytes, the null record otherwise. -/
def service (e : Entry) : Entry :=
  if type e = 33 ∧ 8 ≤ dataSize e then ⟨e.data, dataOffset e⟩ else nullEntry

/-- `Resource::text()`: the raw data bytes of a TXT record, `none` (a null
`QByteArray`) for every other type. -/
def text (e : Entry) : Option (List Nat) :=
  if type e = 16 then some (mid e.data (dataOffset e) (dataSize e)) else none

end Resource

namespace ServiceRecord

/-- `ServiceRecord::priority()`. -/
def priority (e : Entry) : Nat := u16at e.data e.offset

/-- `ServiceRecord::weight()`. -/
def weight (e : Entry) : Nat := u16at e.data (e.offset + 2)

/-- `ServiceRecord::port()`. -/
def port (e : Entry) : Nat := u16at e.data (e.offset + 4)

/-- `ServiceRecord::target().toByteArray()`. -/
def target (e : Entry) : Option (List Nat) := nameText e.data (e.offset + 6)

end ServiceRecord

/-! ### Message section counts and indexed accessors (`MDNS::Message`)

The fixed header is 12 bytes; the section counts are 16-bit fields at
offsets 4, 6, 8 and 10.  `question(i)`, `answer(i)`, `authority(i)` and
`additional(i)` translate the C++ recursions directly for non-negative `i`;
the calls `question(-1)`, `answer(-1)`, `authority(-1)` that the C++ uses to
find the end of the previous section resolve, through its negative-index
branch, to index `count - 1` and are written that way here (they are only
reached when that count is positive). -/

namespace Message

/-- `Message::questionCount()`. -/
def questionCount (d : List Nat) : Nat := u16at d 4

/-- `Message::answerCount()`. -/
def answerCount (d : List Nat) : Nat := u16at d 6

/-- `Message::authorityCount()`. -/
def authorityCount (d : List Nat) : Nat := u16at d 8

/-- `Message::additionalCount()`. -/
def additionalCount (d : List Nat) : Nat := u16at d 10

/-- `Message::responseCount()`. -/
def responseCount (d : List Nat) : Nat := answerCount d + authorityCount d + additionalCount d

/-- `Message::question(i)` for non-negative `i`. -/
def question (d : List Nat) : Nat → Entry
  | 0 => ⟨d, 12⟩
  | i + 1 =>
    if i + 1 < questionCount d then ⟨d, Question.nextOffset (question d i)⟩ else nullEntry

/-- `Message::question(-1)`: the last question (used only when the question
count is positive). -/
def lastQuestion (d : List Nat) : Entry := question d (questionCount d - 1)

/-- `Message::answer(i)` for non-negative `i`. -/
def answer (d : List Nat) : Nat → Entry
  | 0 =>
    if 0 < questionCount d then ⟨d, Question.nextOffset (lastQuestion d)⟩ else ⟨d, 12⟩
  | i + 1 =>
    if i + 1 < answerCount d then ⟨d, Resource.nextOffset (answer d i)⟩ else nullEntry

/-- `Message::answer(-1)`. -/
def lastAnswer (d : List Nat) : Entry := answer d (answerCount d - 1)

/-- `Message::authority(i)` for non-negative `i`. -/
def authority (d : List Nat) : Nat → Entry
  | 0 =>
    if 0 < answerCount d then ⟨d, Resource.nextOffset (lastAnswer d)⟩
    else if 0 < questionCount d then ⟨d, Question.nextOffset (lastQuestion d)⟩
    else ⟨d, 12⟩
  | i + 1 =>
    if i + 1 < authorityCount d then ⟨d, Resource.nextOffset (authority d i)⟩ else nullEntry

/-- `Message::authority(-1)`. -/
def lastAuthority (d : List Nat) : Entry := authority d (authorityCount d - 1)

/-- `Message::additional(i)` for non-negative `i`. -/
def additional (d : List Nat) : Nat → Entry
  | 0 =>
    if 0 < authorityCount d then ⟨d, Resource.nextOffset (lastAuthority d)⟩
    else if 0 < answerCount d then ⟨d, Resource.nextOffset (lastAnswer d)⟩
    else if 0 < questionCount d then ⟨d, Question.nextOffset (lastQuestion d)⟩
    else ⟨d, 12⟩
  | i + 1 =>
    if i + 1 < additionalCount d then ⟨d, Resource.nextOffset (additional d i)⟩ else nullEntry

/-- `Message::response(i)` for non-negative `i`: the answer, authority and
additional sections in order. -/
def response (d : List Nat) (i : Nat) : Entry :=
  if i < answerCount d then answer d i
  else if i - answerCount d < authorityCount d then authority d (i - answerCount d)
  else if i - answerCount d - authorityCount d < additionalCount d then
    additional d (i - answerCount d - authorityCount d)
  else nullEntry

end Message

/-! ### Message construction (`Message::Message()`, `Question::Question`,
`Message::addQuestion`) -/

/-- `Message::Message()`: twelve zero bytes. -/
def emptyMessage : List Nat := List.replicate 12 0

/-- `Question::Question(QByteArray name, type, networkClass, flush)`:
split the dotted name, encode the label list, append four uninitialized
bytes (modelled as zero), then write the type and the class-with-flush words
at `fieldsOffset() = name().size()` computed over that very buffer. -/
def makeQuestion (name : List Nat) (type networkClass : Nat) (flush : Bool) : List Nat :=
  let nd := encodeName (splitDot name) ++ [0, 0, 0, 0]
  let fo := nameSize nd 0
  writeU16 (writeU16 nd fo type) (fo + 2) (networkClass % 128 + if flush then 128 else 0)

/-- `Message::addQuestion`: append the question's bytes and increment the
16-bit question count. -/
def addQuestion (d q : List Nat) : List Nat :=
  writeU16 (d ++ q) 4 ((Message.questionCount d + 1) % 65536)

/-! ### Response interpretation (`Resolver::onReadyRead`)

`onReadyRead` walks `response(i)` for `i` below `responseCount()` and
classifies each record with the `else if` chain
address / service / text; every SRV record with at least 8 data bytes that
is not an address record is inserted into `resolvedServices`, a
`std::unordered_map` keyed by the owner name's dotted text. -/

/-- The `(owner name, service record)` pairs that `onReadyRead` passes to
`resolvedServices.insert`, in message order. -/
def serviceEntries (d : List Nat) : List (Option (List Nat) × Entry) :=
  (List.range (Message.responseCount d)).filterMap fun i =>
    let r := Message.response d i
    if (Resource.address r).isSome then none
    else
      let s := Resource.service r
      if s.isNull then none else some (Resource.nameKey r, s)

/-- `std::unordered_map::insert`: the insertion is a no-op when the key is
already present — the existing mapped value is kept. -/
def umInsert (m : List (Option (List Nat) × Entry)) (kv : Option (List Nat) × Entry) :
    List (Option (List Nat) × Entry) :=
  if (m.lookup kv.1).isSome then m else m ++ [kv]

/-- The final contents of the `resolvedServices` map built by
`Resolver::onReadyRead`, as an association list. -/
def resolvedServices (d : List Nat) : List (Option (List Nat) × Entry) :=
  (serviceEntries d).foldl umInsert []

/-- Modelled from the spec: the map the specification describes instead,
where on a duplicate owner name the later SRV record of the message
overwrites the earlier one ("last wins on duplicate"). -/
def lastWinsServiceMap (l : List (Option (List Nat) × Entry)) :
    List (Option (List Nat) × Entry) :=
  l.foldl
    (fun m kv =>
      if (m.lookup kv.1).isSome
      then m.map fun p => if p.1 = kv.1 then (p.1, kv.2) else p
      else m ++ [kv])
    []

end MDNS

namespace MDNS

/-- Looking a key up in `m ++ [kv]` first consults `m`. -/
theorem lookup_append_single (m : List (Option (List Nat) × Entry)) (kv k) :
    (m ++ [kv]).lookup k
      = ((m.lookup k).or (if k = kv.1 then some kv.2 else none)) := by
  induction m with
  | nil =>
    by_cases h : k = kv.1
    · simp [List.lookup, h, Option.or]
    · have hbeq : (k == kv.1) = false := beq_false_of_ne h
      simp [List.lookup, hbeq, h, Option.or]
  | cons p t ih =>
    by_cases h : k = p.1
    · simp [List.lookup, h, Option.or]
    · have hbeq : (k == p.1) = false := beq_false_of_ne h
      simp [List.lookup, hbeq, ih]

/-- Folding `std::unordered_map::insert` over a list of entries yields the
first binding of each key: later duplicates never replace earlier ones. -/
theorem lookup_foldl_umInsert (l : List (Option (List Nat) × Entry)) :
    ∀ (m : List (Option (List Nat) × Entry)) (k : Option (List Nat)),
      (l.foldl umInsert m).lookup k = (m.lookup k).or (l.lookup k) := by
  induction l with
  | nil => intro m k; simp [List.lookup]
  | cons kv t ih =>
    intro m k
    show (t.foldl umInsert (umInsert m kv)).lookup k = _
    rw [ih]
    unfold umInsert
    by_cases hmem : (m.lookup kv.1).isSome
    · simp only [hmem, if_true]
      by_cases hk : k = kv.1
      · subst hk
        obtain ⟨v, hv⟩ := Option.isSome_iff_exists.mp hmem
        simp [List.lookup, hv, Option.or]
      · have hbeq : (k == kv.1) = false := beq_false_of_ne hk
        simp [List.lookup, hbeq]
    · simp only [hmem, if_false, Bool.false_eq_true, lookup_append_single]
      by_cases hk : k = kv.1
      · subst hk
        have hnone : m.lookup kv.1 = none := Option.not_isSome_iff_eq_none.mp hmem
        simp [List.lookup, hnone, Option.or]
      · have hbeq : (k == kv.1) = false := beq_false_of_ne hk
        simp [List.lookup, hbeq, hk, Option.or_assoc]

/-- A decoded response message with two SRV answers owning the same name
`a`: the first with port 80, the second with port 81.  Header: serial 0,
flags `0x8400`, 0 questions, 2 answers, 0 authority, 0 additional. -/
def demoSrvMessage : List Nat :=
  [0, 0, 132, 0, 0, 0, 0, 2, 0, 0, 0, 0] ++
  [1, 97, 0, 0, 33, 0, 1, 0, 0, 0, 120, 0, 9, 0, 0, 0, 0, 0, 80, 1, 116, 0] ++
  [1, 97, 0, 0, 33, 0, 1, 0, 0, 0, 120, 0, 9, 0, 0, 0, 0, 0, 81, 1, 116, 0]

end MDNS

namespace MDNS

open QNC

/-! ### C1: evaluation of the codec on adversarial buffers -/

/-- The two-byte buffer holding a single compression pointer that points at
its own offset (`0xc0 0x00`). -/
def selfPointer : List Nat := [192, 0]

end MDNS

open QNC MDNS

/-- C1: `MDNS::Name::toByteArray()` follows the self-referencing compression
pointer of `selfPointer` forever: no fuel bound makes the recursion of the
C++ implementation produce a value, because the code has no follow-count
bound and no strictly-decreasing-offset check. -/
theorem name_toByteArray_diverges_on_self_pointer :
    ∀ fuel : Nat, nameTextFuel selfPointer fuel 0 = none := by
  intro fuel
  unfold nameTextFuel
  suffices h : ∀ f : Nat, namePiecesFuel selfPointer f 0 = none by
    rw [h fuel]; rfl
  intro f
  induction f with
  | zero => rfl
  | succ n ih =>
    show namePiecesFuel selfPointer (n + 1) 0 = none
    unfold namePiecesFuel
    simp only [selfPointer, List.get?]
    norm_num
    simp only [selfPointer] at ih
    rw [ih]

/-- C6 (counterexample): in `demoSrvMessage`, two SRV answers own the name
`a`; the first has port 80, the last has port 81.  The `resolvedServices`
map built by `Resolver::onReadyRead` retains the record with port 80 — the
first of the message — while the map the claim describes (last wins) would
hold the record with port 81. -/
theorem resolvedServices_keeps_first_on_demoSrvMessage :
    ((MDNS.resolvedServices MDNS.demoSrvMessage).lookup (some [97])).map
        MDNS.ServiceRecord.port = some 80 ∧
      ((MDNS.lastWinsServiceMap (MDNS.serviceEntries MDNS.demoSrvMessage)).lookup
          (some [97])).map MDNS.ServiceRecord.port = some 81 ∧
      (MDNS.resolvedServices MDNS.demoSrvMessage).lookup (some [97]) ≠
        (MDNS.lastWinsServiceMap (MDNS.serviceEntries MDNS.demoSrvMessage)).lookup
          (some [97]) := by
  refine ⟨by decide, by decide, by decide⟩

/-- C6 (as amended): the `resolvedServices` map that drives the emitted
service-found events binds each owner name to the FIRST SRV record of the
message with that name — `std::unordered_map::insert` never overwrites, so
on duplicates the first record wins, not the last. -/
theorem resolvedServices_first_wins (d : List Nat) (k : Option (List Nat)) :
    (MDNS.resolvedServices d).lookup k = (MDNS.serviceEntries d).lookup k := by
  unfold MDNS.resolvedServices
  rw [MDNS.lookup_foldl_umInsert]
  simp [List.lookup]

/-- C10 (counterexample): on the empty message — twelve zero bytes, all
section counts zero — `question(0)` does not return a null entry even
though the index 0 is not below the question count: it returns the entry
anchored at offset 12 that shares the message buffer. -/
theorem question_zero_not_null_on_empty_message :
    MDNS.Message.questionCount MDNS.emptyMessage = 0 ∧
      (MDNS.Message.question MDNS.emptyMessage 0).isNull = false := by
  refine ⟨by decide, by decide⟩

/-- C10 (as amended): for every positive index at or beyond the section
count, `question(i)`, `answer(i)`, `authority(i)` and `additional(i)` return
a null entry, and `response(i)` returns a null entry for every index at or
beyond `responseCount()`; only the four per-section accessors at index 0
with a zero count escape this and return a non-null entry at the section
start instead. -/
theorem section_accessors_null_beyond_counts (d : List Nat) (i : Nat) :
    (MDNS.Message.questionCount d ≤ i → 1 ≤ i →
        (MDNS.Message.question d i).isNull = true) ∧
      (MDNS.Message.answerCount d ≤ i → 1 ≤ i →
        (MDNS.Message.answer d i).isNull = true) ∧
      (MDNS.Message.authorityCount d ≤ i → 1 ≤ i →
        (MDNS.Message.authority d i).isNull = true) ∧
      (MDNS.Message.additionalCount d ≤ i → 1 ≤ i →
        (MDNS.Message.additional d i).isNull = true) ∧
      (MDNS.Message.responseCount d ≤ i →
        (MDNS.Message.response d i).isNull = true) := by
  refine ⟨?_, ?_, ?_, ?_, ?_⟩
  · intro hc h1
    obtain ⟨j, rfl⟩ := Nat.exists_eq_add_of_le h1
    rw [Nat.add_comm] at hc ⊢
    simp [MDNS.Message.question, Nat.not_lt.mpr hc, MDNS.nullEntry, MDNS.Entry.isNull]
  · intro hc h1
    obtain ⟨j, rfl⟩ := Nat.exists_eq_add_of_le h1
    rw [Nat.add_comm] at hc ⊢
    simp [MDNS.Message.answer, Nat.not_lt.mpr hc, MDNS.nullEntry, MDNS.Entry.isNull]
  · intro hc h1
    obtain ⟨j, rfl⟩ := Nat.exists_eq_add_of_le h1
    rw [Nat.add_comm] at hc ⊢
    simp [MDNS.Message.authority, Nat.not_lt.mpr hc, MDNS.nullEntry, MDNS.Entry.isNull]
  · intro hc h1
    obtain ⟨j, rfl⟩ := Nat.exists_eq_add_of_le h1
    rw [Nat.add_comm] at hc ⊢
    simp [MDNS.Message.additional, Nat.not_lt.mpr hc, MDNS.nullEntry, MDNS.Entry.isNull]
  · intro hc
    unfold MDNS.Message.response
    unfold MDNS.Message.responseCount at hc
    rw [if_neg (by omega), if_neg (by omega), if_neg (by omega)]
    rfl

/-- C10 (witness): the amended statement applied to the empty message at
index 3, with all hypotheses discharged concretely. -/
theorem section_accessors_null_beyond_counts_witness :
    (MDNS.Message.question MDNS.emptyMessage 3).isNull = true ∧
      (MDNS.Message.response MDNS.emptyMessage 3).isNull = true := by
  have h := section_accessors_null_beyond_counts MDNS.emptyMessage 3
  exact ⟨h.1 (by decide) (by decide), h.2.2.2.2 (by decide)⟩


/-! ### Round-trip of encoded questions (C2) -/

namespace MDNS

open QNC

/-- `Message().addQuestion(Question{name, type})`: the full wire message a
question query is built from — the class is `Message::IN = 1` and the flush
bit is clear, as in `Resolver::lookupHostNames` / `lookupServices`. -/
def encodeQuestionMessage (name : List Nat) (type : Nat) : List Nat :=
  addQuestion emptyMessage (makeQuestion name type 1 false)

theorem nameSizeFuel_succ (d : List Nat) (f off : Nat) :
    nameSizeFuel d (f + 1) off =
      if 192 ≤ byteAt d off then 2
      else if byteAt d off = 0 then 1
      else if byteAt d off ≤ 63 then (1 + byteAt d off) + nameSizeFuel d f (off + 1 + byteAt d off)
      else 1 := rfl

theorem namePiecesFuel_succ (d : List Nat) (f off : Nat) :
    namePiecesFuel d (f + 1) off =
      match d.get? off with
      | none => none
      | some b =>
        if 192 ≤ b then
          match d.get? (off + 1) with
          | none => none
          | some b2 =>
            match namePiecesFuel d f (b % 64 * 256 + b2) with
            | none => none
            | some ps => some [List.intercalate [46] ps]
        else if b = 0 then some []
        else if b ≤ 63 then
          match namePiecesFuel d f (off + 1 + b) with
          | none => none
          | some ps => some (mid d (off + 1) b :: ps)
        else some [] := rfl

theorem get?_append_cons (pre : List Nat) (x : Nat) (rest : List Nat) :
    (pre ++ x :: rest).get? pre.length = some x := by
  induction pre with
  | nil => rfl
  | cons a t ih => simp only [List.cons_append, List.length_cons, List.get?]; exact ih

theorem byteAt_append_left {i : Nat} (a b : List Nat) (h : i < a.length) :
    byteAt (a ++ b) i = byteAt a i :=
  List.getD_append a b 0 i h

theorem byteAt_append_right {i : Nat} (a b : List Nat) (h : a.length ≤ i) :
    byteAt (a ++ b) i = byteAt b (i - a.length) :=
  List.getD_append_right a b 0 i h

theorem set_append_left {α : Type} {i : Nat} (a b : List α) (v : α) (h : i < a.length) :
    (a ++ b).set i v = a.set i v ++ b := by
  induction a generalizing i with
  | nil => exact absurd h (by simp)
  | cons x t ih =>
    cases i with
    | zero => rfl
    | succ j => simpa using ih (by simpa using h)

theorem set_append_length {α : Type} (a : List α) (x : α) (b : List α) (v : α) :
    (a ++ x :: b).set a.length v = a ++ v :: b := by
  induction a with
  | nil => rfl
  | cons y t ih =>
    simp only [List.cons_append, List.length_cons, List.set]
    exact congrArg (List.cons y) ih

theorem writeU16_left {i : Nat} (a b : List Nat) (v : Nat) (h : i + 1 < a.length) :
    writeU16 (a ++ b) i v = writeU16 a i v ++ b := by
  unfold writeU16
  rw [set_append_left a b _ (by omega),
    set_append_left (a.set i (v / 256 % 256)) b _ (by simpa using h)]

theorem writeU16_mid (a : List Nat) (x y : Nat) (b : List Nat) (v : Nat) :
    writeU16 (a ++ x :: y :: b) a.length v = a ++ v / 256 % 256 :: v % 256 :: b := by
  unfold writeU16
  rw [set_append_length]
  have h : a ++ v / 256 % 256 :: y :: b = (a ++ [v / 256 % 256]) ++ y :: b := by simp
  rw [h]
  have h2 : a.length + 1 = (a ++ [v / 256 % 256]).length := by simp
  rw [h2, set_append_length]
  simp

theorem encodeName_length_ge (labels : List (List Nat)) :
    labels.length + 1 ≤ (encodeName labels).length := by
  induction labels with
  | nil => simp [encodeName]
  | cons l t ih =>
    simp only [encodeName, List.flatMap_cons, encodeLabel] at ih ⊢
    simp only [List.length_append, List.length_cons] at ih ⊢
    omega

/-- Scanning the label-list encoding laid down by `makeLabelList` recovers
`Name::size()`: the byte length of the encoding. -/
theorem nameSizeFuel_encode (labels : List (List Nat))
    (hl : ∀ l ∈ labels, 0 < l.length ∧ l.length ≤ 63) :
    ∀ (pre post : List Nat) (fuel : Nat), labels.length + 1 ≤ fuel →
      nameSizeFuel (pre ++ encodeName labels ++ post) fuel pre.length
        = (encodeName labels).length := by
  induction labels with
  | nil =>
    intro pre post fuel hfuel
    obtain ⟨f, rfl⟩ : ∃ f, fuel = f + 1 := ⟨fuel - 1, by omega⟩
    have hd : pre ++ encodeName [] ++ post = pre ++ [0] ++ post := by simp [encodeName]
    have hb : byteAt (pre ++ [0] ++ post) pre.length = 0 := by
      rw [List.append_assoc, byteAt_append_right pre _ (le_refl _)]
      simp [byteAt]
    rw [hd, nameSizeFuel_succ, hb]
    norm_num [encodeName]
  | cons l t ih =>
    intro pre post fuel hfuel
    obtain ⟨f, rfl⟩ : ∃ f, fuel = f + 1 := ⟨fuel - 1, by omega⟩
    obtain ⟨hl0, hl63⟩ := hl l (List.mem_cons_self l t)
    have henc : encodeName (l :: t) = (l.length :: l) ++ encodeName t := by
      simp [encodeName, encodeLabel, List.flatMap_cons,
        Nat.mod_eq_of_lt (show l.length < 256 by omega)]
    have hd : pre ++ encodeName (l :: t) ++ post
        = (pre ++ l.length :: l) ++ encodeName t ++ post := by
      rw [henc]; simp
    have hb : byteAt ((pre ++ l.length :: l) ++ encodeName t ++ post) pre.length
        = l.length := by
      rw [byteAt_append_left _ _
          (by simp only [List.length_append, List.length_cons]; omega),
        byteAt_append_left _ _
          (by simp only [List.length_append, List.length_cons]; omega),
        byteAt_append_right pre _ (le_refl _)]
      simp [byteAt]
    have hlen : pre.length + 1 + l.length = (pre ++ l.length :: l).length := by
      simp only [List.length_append, List.length_cons]; omega
    have hfuel2 : t.length + 1 ≤ f := by
      simp only [List.length_cons] at hfuel; omega
    rw [hd, nameSizeFuel_succ, hb, if_neg (by omega), if_neg (by omega), if_pos hl63,
      hlen, ih (fun x hx => hl x (List.mem_cons_of_mem l hx)) (pre ++ l.length :: l) post f hfuel2,
      henc]
    simp only [List.length_append, List.length_cons]
    omega

/-- Scanning the label-list encoding recovers the labels themselves: the
pieces of `Name::toByteArray()` are exactly the encoded labels. -/
theorem namePiecesFuel_encode (labels : List (List Nat))
    (hl : ∀ l ∈ labels, 0 < l.length ∧ l.length ≤ 63) :
    ∀ (pre post : List Nat) (fuel : Nat), labels.length + 1 ≤ fuel →
      namePiecesFuel (pre ++ encodeName labels ++ post) fuel pre.length
        = some labels := by
  induction labels with
  | nil =>
    intro pre post fuel hfuel
    obtain ⟨f, rfl⟩ : ∃ f, fuel = f + 1 := ⟨fuel - 1, by omega⟩
    have hd : pre ++ encodeName [] ++ post = pre ++ [0] ++ post := by simp [encodeName]
    have hget : (pre ++ [0] ++ post).get? pre.length = some 0 := by
      rw [List.append_assoc]
      exact get?_append_cons pre 0 post
    rw [hd, namePiecesFuel_succ, hget]
    norm_num
  | cons l t ih =>
    intro pre post fuel hfuel
    obtain ⟨f, rfl⟩ : ∃ f, fuel = f + 1 := ⟨fuel - 1, by omega⟩
    obtain ⟨hl0, hl63⟩ := hl l (List.mem_cons_self l t)
    have henc : encodeName (l :: t) = (l.length :: l) ++ encodeName t := by
      simp [encodeName, encodeLabel, List.flatMap_cons,
        Nat.mod_eq_of_lt (show l.length < 256 by omega)]
    have hd : pre ++ encodeName (l :: t) ++ post
        = (pre ++ l.length :: l) ++ encodeName t ++ post := by
      rw [henc]; simp
    have hget : ((pre ++ l.length :: l) ++ encodeName t ++ post).get? pre.length
        = some l.length := by
      have hassoc : (pre ++ l.length :: l) ++ encodeName t ++ post
          = pre ++ l.length :: (l ++ (encodeName t ++ post)) := by simp
      rw [hassoc]
      exact get?_append_cons pre l.length _
    have hlen : pre.length + 1 + l.length = (pre ++ l.length :: l).length := by
      simp only [List.length_append, List.length_cons]; omega
    have hfuel2 : t.length + 1 ≤ f := by
      simp only [List.length_cons] at hfuel; omega
    have hmid : mid ((pre ++ l.length :: l) ++ encodeName t ++ post)
        (pre.length + 1) l.length = l := by
      have hassoc2 : (pre ++ l.length :: l) ++ encodeName t ++ post
          = (pre ++ [l.length]) ++ (l ++ (encodeName t ++ post)) := by simp
      show (((pre ++ l.length :: l) ++ encodeName t ++ post).drop
          (pre.length + 1)).take l.length = l
      rw [hassoc2, show pre.length + 1 = (pre ++ [l.length]).length from by simp,
        List.drop_left, List.take_left]
    rw [hd, namePiecesFuel_succ, hget]
    dsimp only
    rw [if_neg (by omega), if_neg (by omega), if_pos hl63, hlen,
      ih (fun x hx => hl x (List.mem_cons_of_mem l hx)) (pre ++ l.length :: l) post f hfuel2]
    dsimp only
    rw [hmid]

/-- The bytes of `Question{name, type, IN, false}` for a well-formed dotted
name: the encoded label list followed by the big-endian type and the
class word `0x0001`. -/
theorem makeQuestion_eq (s : List Nat) (type : Nat)
    (hl : ∀ l ∈ splitDot s, 0 < l.length ∧ l.length ≤ 63) :
    makeQuestion s type 1 false
      = encodeName (splitDot s) ++ [type / 256 % 256, type % 256, 0, 1] := by
  have hfuel : (splitDot s).length + 1
      ≤ (encodeName (splitDot s) ++ [0, 0, 0, 0]).length + 1 := by
    have := encodeName_length_ge (splitDot s)
    simp only [List.length_append]
    omega
  have h0 : nameSize (encodeName (splitDot s) ++ [0, 0, 0, 0]) 0
      = (encodeName (splitDot s)).length := by
    have h := nameSizeFuel_encode (splitDot s) hl [] [0, 0, 0, 0]
      ((encodeName (splitDot s) ++ [0, 0, 0, 0]).length + 1) hfuel
    simpa [nameSize] using h
  simp only [makeQuestion, h0]
  rw [writeU16_mid]
  have hassoc : encodeName (splitDot s) ++ type / 256 % 256 :: type % 256 :: [0, 0]
      = (encodeName (splitDot s) ++ [type / 256 % 256, type % 256]) ++ 0 :: 0 :: [] := by
    simp
  have hlen2 : (encodeName (splitDot s)).length + 2
      = (encodeName (splitDot s) ++ [type / 256 % 256, type % 256]).length := by
    simp
  rw [hassoc, hlen2, writeU16_mid]
  norm_num

/-- The full wire bytes of a one-question query message. -/
theorem encodeQuestionMessage_eq (s : List Nat) (type : Nat)
    (hl : ∀ l ∈ splitDot s, 0 < l.length ∧ l.length ≤ 63) :
    encodeQuestionMessage s type
      = [0, 0, 0, 0, 0, 1, 0, 0, 0, 0, 0, 0]
        ++ (encodeName (splitDot s) ++ [type / 256 % 256, type % 256, 0, 1]) := by
  unfold encodeQuestionMessage addQuestion
  rw [makeQuestion_eq s type hl,
    show Message.questionCount emptyMessage = 0 from rfl]
  norm_num
  rw [writeU16_left _ _ _ (show 4 + 1 < emptyMessage.length by norm_num [emptyMessage]),
    show writeU16 emptyMessage 4 1 = [0, 0, 0, 0, 0, 1, 0, 0, 0, 0, 0, 0] from rfl]
  rfl


/-- C2 (as amended): for every dotted ASCII name of 1–253 bytes without
empty labels and with every dot-separated label at most 63 bytes, and every
16-bit record type, building a one-question message and re-decoding its
bytes yields question count 1, the same dotted name, and the same type. -/
theorem question_roundtrip (s : List Nat) (type : Nat)
    (_hlen1 : 1 ≤ s.length) (_hlen2 : s.length ≤ 253)
    (_hascii : ∀ b ∈ s, b < 128)
    (hempty : ∀ l ∈ MDNS.splitDot s, l ≠ [])
    (hlabel : ∀ l ∈ MDNS.splitDot s, l.length ≤ 63)
    (htype : type < 65536) :
    MDNS.Message.questionCount (MDNS.encodeQuestionMessage s type) = 1 ∧
      MDNS.Question.nameString
        (MDNS.Message.question (MDNS.encodeQuestionMessage s type) 0) = some s ∧
      MDNS.Question.type
        (MDNS.Message.question (MDNS.encodeQuestionMessage s type) 0) = type := by
  have hl : ∀ l ∈ MDNS.splitDot s, 0 < l.length ∧ l.length ≤ 63 := fun l h =>
    ⟨List.length_pos.mpr (hempty l h), hlabel l h⟩
  have hD := MDNS.encodeQuestionMessage_eq s type hl
  set D := MDNS.encodeQuestionMessage s type with hDdef
  set enc := MDNS.encodeName (MDNS.splitDot s) with hencdef
  have hDlen : D.length = 16 + enc.length := by
    rw [hD]
    simp only [List.length_append, List.length_cons, List.length_nil]
    omega
  have hfuelD : (MDNS.splitDot s).length + 1 ≤ D.length + 1 := by
    have hge := MDNS.encodeName_length_ge (MDNS.splitDot s)
    rw [← hencdef] at hge
    omega
  have hD2 : D = ([0, 0, 0, 0, 0, 1, 0, 0, 0, 0, 0, 0] ++ enc)
      ++ [type / 256 % 256, type % 256, 0, 1] := by
    rw [hD]; simp
  refine ⟨?_, ?_, ?_⟩
  · show QNC.u16at D 4 = 1
    unfold QNC.u16at
    rw [hD, MDNS.byteAt_append_left _ _ (by decide),
      MDNS.byteAt_append_left _ _ (by decide)]
    decide
  · show MDNS.Question.nameString ⟨D, 12⟩ = some s
    unfold MDNS.Question.nameString MDNS.nameText MDNS.nameTextFuel
    have hp := MDNS.namePiecesFuel_encode (MDNS.splitDot s) hl
      [0, 0, 0, 0, 0, 1, 0, 0, 0, 0, 0, 0] [type / 256 % 256, type % 256, 0, 1]
      (D.length + 1) hfuelD
    rw [← hencdef, List.append_assoc, ← hD] at hp
    show (MDNS.namePiecesFuel D (D.length + 1) 12).map (List.intercalate [46]) = some s
    rw [show (12 : Nat)
        = ([0, 0, 0, 0, 0, 1, 0, 0, 0, 0, 0, 0] : List Nat).length from rfl, hp]
    have hsplit : List.intercalate [46] (s.splitOn 46) = s := List.intercalate_splitOn s 46
    exact congrArg some hsplit
  · show MDNS.Question.type ⟨D, 12⟩ = type
    unfold MDNS.Question.type MDNS.Question.fieldsOffset
    have hs := MDNS.nameSizeFuel_encode (MDNS.splitDot s) hl
      [0, 0, 0, 0, 0, 1, 0, 0, 0, 0, 0, 0] [type / 256 % 256, type % 256, 0, 1]
      (D.length + 1) hfuelD
    rw [← hencdef, List.append_assoc, ← hD] at hs
    have hsize : MDNS.nameSize D 12 = enc.length := by
      unfold MDNS.nameSize
      rw [show (12 : Nat)
        = ([0, 0, 0, 0, 0, 1, 0, 0, 0, 0, 0, 0] : List Nat).length from rfl, hs]
    show QNC.u16at D (12 + MDNS.nameSize D 12) = type
    rw [hsize]
    have hidx : 12 + enc.length
        = (([0, 0, 0, 0, 0, 1, 0, 0, 0, 0, 0, 0] : List Nat) ++ enc).length := by
      simp
      omega
    unfold QNC.u16at
    have hb1 : QNC.byteAt D (12 + enc.length) = type / 256 % 256 := by
      rw [hD2, hidx, MDNS.byteAt_append_right _ _ (le_refl _), Nat.sub_self]
      rfl
    have hb2 : QNC.byteAt D (12 + enc.length + 1) = type % 256 := by
      rw [hD2, hidx, MDNS.byteAt_append_right _ _ (by omega),
        Nat.add_sub_cancel_left]
      rfl
    rw [hb1, hb2]
    omega

/-- C2 (witness): the round-trip theorem applied to the concrete name
`ab.c` and the record type `A = 1`. -/
theorem question_roundtrip_witness :
    MDNS.Message.questionCount (MDNS.encodeQuestionMessage [97, 98, 46, 99] 1) = 1 ∧
      MDNS.Question.nameString
        (MDNS.Message.question (MDNS.encodeQuestionMessage [97, 98, 46, 99] 1) 0)
        = some [97, 98, 46, 99] ∧
      MDNS.Question.type
        (MDNS.Message.question (MDNS.encodeQuestionMessage [97, 98, 46, 99] 1) 0) = 1 :=
  question_roundtrip [97, 98, 46, 99] 1 (by decide) (by decide) (by decide)
    (by decide) (by decide) (by decide)

/-- C2 (counterexample): the single 64-byte label `aaa…a` satisfies every
hypothesis of the claim as frozen — a 64-byte ASCII dotted string without
empty labels — yet the round trip loses the name: the encoder emits the
length byte 64, whose top bits `01` make the decoder read a reserved label
and return the empty name. -/
theorem question_roundtrip_fails_for_64_byte_label :
    (1 ≤ (List.replicate 64 97 : List Nat).length ∧
        (List.replicate 64 97 : List Nat).length ≤ 253 ∧
        (∀ b ∈ (List.replicate 64 97 : List Nat), b < 128) ∧
        (∀ l ∈ MDNS.splitDot (List.replicate 64 97), l ≠ [])) ∧
      MDNS.Question.nameString
          (MDNS.Message.question (MDNS.encodeQuestionMessage (List.replicate 64 97) 1) 0)
        ≠ some (List.replicate 64 97) := by
  refine ⟨⟨by decide, by decide, by decide, by decide⟩, by decide⟩

end MDNS

/-! ### Host-name domain handling (`mdnsresolver.cpp`, C9)

`QString`s are modelled as `List Char`. -/

namespace MDNS

/-- `QString::endsWith`. -/
def endsWithQ (s suffix : List Char) : Bool := decide (suffix <:+ s)

/-- `normalizedHostName(name, domain)`: strip one trailing dot, then strip
one trailing `.<domain>`. -/
def normalizedHostName (name domain : List Char) : List Char :=
  let n1 := if endsWithQ name ['.'] then name.take (name.length - 1) else name
  if endsWithQ n1 ('.' :: domain) then n1.take (n1.length - domain.length - 1) else n1

/-- `qualifiedHostName(name, domain)`: strip one trailing dot, or else
append `.<domain>` unless the name already ends with it. -/
def qualifiedHostName (name domain : List Char) : List Char :=
  if endsWithQ name ['.'] then name.take (name.length - 1)
  else if ¬ (endsWithQ name ('.' :: domain) = true) then name ++ '.' :: domain
  else name

end MDNS

/-- C9 (counterexample): `a.local.local` ends with `.local` and has no
trailing dot, yet qualifying its normalized form yields `a.local`, not the
original name: stripping removes only one `.local` copy and qualifying does
not re-append it because the stripped name still ends with `.local`. -/
theorem qualify_normalize_fails_on_double_domain :
    MDNS.endsWithQ "a.local.local".toList ('.' :: "local".toList) = true ∧
      MDNS.endsWithQ "a.local.local".toList ['.'] = false ∧
      MDNS.qualifiedHostName
          (MDNS.normalizedHostName "a.local.local".toList "local".toList)
          "local".toList
        = "a.local".toList ∧
      "a.local".toList ≠ "a.local.local".toList := by
  refine ⟨by decide, by decide, by decide, by decide⟩

/-- C9 (as amended): for a name of the form `m.<domain>` with no trailing
dot, where the remainder `m` itself neither ends with a dot nor ends with
`.<domain>`, qualifying the normalized name gives the name back. -/
theorem qualify_normalize_roundtrip (m domain : List Char)
    (hnd : MDNS.endsWithQ (m ++ '.' :: domain) ['.'] = false)
    (hm1 : MDNS.endsWithQ m ['.'] = false)
    (hm2 : MDNS.endsWithQ m ('.' :: domain) = false) :
    MDNS.qualifiedHostName (MDNS.normalizedHostName (m ++ '.' :: domain) domain) domain
      = m ++ '.' :: domain := by
  have hsuffix : MDNS.endsWithQ (m ++ '.' :: domain) ('.' :: domain) = true := by
    unfold MDNS.endsWithQ
    exact decide_eq_true (List.suffix_append m ('.' :: domain))
  have hnorm : MDNS.normalizedHostName (m ++ '.' :: domain) domain = m := by
    unfold MDNS.normalizedHostName
    simp only [hnd, if_false, hsuffix, if_true, Bool.false_eq_true]
    have hlen : (m ++ '.' :: domain).length - domain.length - 1 = m.length := by
      simp only [List.length_append, List.length_cons]
      omega
    rw [hlen, List.take_left]
  rw [hnorm]
  unfold MDNS.qualifiedHostName
  simp only [hm1, hm2, Bool.false_eq_true, if_false, not_false_iff, if_true]

/-- C9 (witness): the amended statement at `host` / `local`. -/
theorem qualify_normalize_roundtrip_witness :
    MDNS.qualifiedHostName
        (MDNS.normalizedHostName ("host".toList ++ '.' :: "local".toList) "local".toList)
        "local".toList
      = "host".toList ++ '.' :: "local".toList :=
  qualify_normalize_roundtrip "host".toList "local".toList
    (by decide) (by decide) (by decide)

/-! ### Self-echo suppression (`qncresolver.cpp`, `mdnsresolver.cpp`, C3) -/

namespace qnc.core

/-- A received UDP datagram (`QNetworkDatagram`): payload bytes, sender
address and sender port.  Addresses are opaque values modelled as `Nat`. -/
structure Datagram where
  data : List Nat
  senderAddress : Nat
  senderPort : Nat
deriving DecidableEq, Repr

/-- The resolver state that `MulticastResolver::isOwnMessage` consults:
the query set `m_queries`, the keys of the socket table `m_sockets` (the
local addresses the resolver sends from), and the protocol `port()`. -/
structure MulticastResolverState where
  queries : List (List Nat)
  socketAddresses : List Nat
  port : Nat

/-- `MulticastResolver::isOwnMessage`: sender port must equal the protocol
port, `socketForAddress(senderAddress)` must find a socket, and the payload
must be byte-identical to a query in the set. -/
def isOwnMessage (st : MulticastResolverState) (m : Datagram) : Bool :=
  if m.senderPort ≠ st.port then false
  else if ¬ (m.senderAddress ∈ st.socketAddresses) then false
  else decide (m.data ∈ st.queries)

/-- `MulticastResolver::onDatagramReceived`: every pending datagram is
drained; exactly those that are not own messages are handed to
`processDatagram`. -/
def processedDatagrams (st : MulticastResolverState) (pending : List Datagram) :
    List Datagram :=
  pending.filter fun m => ! isOwnMessage st m

end qnc.core

namespace MDNS.Resolver

/-- `MDNS::Resolver::isOwnMessage`: the same filter with the fixed mDNS
port 5353 and the scanned `m_ownAddresses` list. -/
def isOwnMessage (queries : List (List Nat)) (ownAddresses : List Nat)
    (m : qnc.core.Datagram) : Bool :=
  if m.senderPort ≠ 5353 then false
  else if ¬ (m.senderAddress ∈ ownAddresses) then false
  else decide (m.data ∈ queries)

/-- `MDNS::Resolver::onReadyRead`: datagrams that are not own messages are
decoded and produce events. -/
def processedDatagrams (queries : List (List Nat)) (ownAddresses : List Nat)
    (pending : List qnc.core.Datagram) : List qnc.core.Datagram :=
  pending.filter fun m => ! isOwnMessage queries ownAddresses m

end MDNS.Resolver

/-- C3: a received datagram whose payload equals a query in the set, whose
sender port is the protocol port, and whose sender address is one of the
local addresses the resolver sends from, is never handed to the protocol
decoder — in the shared multicast runtime and in the mDNS resolver alike. -/
theorem self_echo_suppressed
    (st : qnc.core.MulticastResolverState) (pending : List qnc.core.Datagram)
    (m : qnc.core.Datagram) (q : List Nat)
    (hq : q ∈ st.queries) (hdata : m.data = q)
    (hport : m.senderPort = st.port)
    (haddr : m.senderAddress ∈ st.socketAddresses)
    (queries' : List (List Nat)) (own' : List Nat)
    (pending' : List qnc.core.Datagram) (m' : qnc.core.Datagram) (q' : List Nat)
    (hq' : q' ∈ queries') (hdata' : m'.data = q')
    (hport' : m'.senderPort = 5353) (haddr' : m'.senderAddress ∈ own') :
    m ∉ qnc.core.processedDatagrams st pending ∧
      m' ∉ MDNS.Resolver.processedDatagrams queries' own' pending' := by
  constructor
  · intro hmem
    have hkeep := (List.mem_filter.mp hmem).2
    have hown : qnc.core.isOwnMessage st m = true := by
      unfold qnc.core.isOwnMessage
      rw [if_neg (by simp [hport]), if_neg (by simp [haddr])]
      exact decide_eq_true (hdata ▸ hq)
    rw [hown] at hkeep
    exact absurd hkeep (by decide)
  · intro hmem
    have hkeep := (List.mem_filter.mp hmem).2
    have hown : MDNS.Resolver.isOwnMessage queries' own' m' = true := by
      unfold MDNS.Resolver.isOwnMessage
      rw [if_neg (by simp [hport']), if_neg (by simp [haddr'])]
      exact decide_eq_true (hdata' ▸ hq')
    rw [hown] at hkeep
    exact absurd hkeep (by decide)

/-- C3 (witness): concrete states in which the echoed query is dropped by
both resolvers. -/
theorem self_echo_suppressed_witness :
    (⟨[1, 2], 7, 5353⟩ : qnc.core.Datagram)
        ∉ qnc.core.processedDatagrams ⟨[[1, 2]], [7], 5353⟩ [⟨[1, 2], 7, 5353⟩] ∧
      (⟨[3], 9, 5353⟩ : qnc.core.Datagram)
        ∉ MDNS.Resolver.processedDatagrams [[3]] [9] [⟨[3], 9, 5353⟩] :=
  self_echo_suppressed ⟨[[1, 2]], [7], 5353⟩ [⟨[1, 2], 7, 5353⟩] ⟨[1, 2], 7, 5353⟩ [1, 2]
    (by decide) (by decide) (by decide) (by decide)
    [[3]] [9] [⟨[3], 9, 5353⟩] ⟨[3], 9, 5353⟩ [3]
    (by decide) (by decide) (by decide) (by decide)

/-! ### SSDP/HTTP codec (`httpparser.cpp`, `ssdpresolver.cpp`) -/

namespace qnc.http

open QNC

/-- The bytes of an ASCII string literal. -/
def strB (s : String) : List Nat := s.toList.map Char.toNat

/-- The six ASCII whitespace bytes that `QByteArray::trimmed` strips. -/
def isSpaceB (b : Nat) : Bool := b = 32 || b = 9 || b = 10 || b = 11 || b = 12 || b = 13

/-- `QByteArray::trimmed`. -/
def trimB (s : List Nat) : List Nat :=
  ((s.dropWhile isSpaceB).reverse.dropWhile isSpaceB).reverse

/-- ASCII lower-casing, the basis of Qt's `CaseInsensitive` comparisons. -/
def lowerB (b : Nat) : Nat := if 65 ≤ b ∧ b ≤ 90 then b + 32 else b

/-- `CaseInsensitive::operator==` on byte strings. -/
def ciEq (a b : List Nat) : Bool := decide (a.map lowerB = b.map lowerB)

/-- `CaseInsensitive::startsWith` on byte strings. -/
def ciStartsWith (s p : List Nat) : Bool := (p.map lowerB).isPrefixOf (s.map lowerB)

/-- `QByteArray::toUInt(ok, 10)`, the external numeric parser that
`core::parse<uint>` wraps: surrounding whitespace ignored, an optional
leading `+`, decimal digits, range-checked against 32 bits. -/
def toUIntQ (s : List Nat) : Option Nat :=
  let t := trimB s
  let t2 := if t.head? = some 43 then t.tail else t
  if t2 ≠ [] ∧ t2.all (fun b => 48 ≤ b ∧ b ≤ 57) then
    let n := t2.foldl (fun acc b => acc * 10 + (b - 48)) 0
    if n < 4294967296 then some n else none
  else none

/-- `QIODevice::readLine` on a buffer: the first line up to and including
its newline, plus the remainder; `none` when `canReadLine()` is false
because no full line is buffered. -/
def takeLine : List Nat → Option (List Nat × List Nat)
  | [] => none
  | b :: rest =>
    if b = 10 then some ([10], rest)
    else
      match takeLine rest with
      | none => none
      | some (l, r) => some (b :: l, r)

/-- `Message::Type`. -/
inductive MsgType
  | Invalid
  | Request
  | Response
deriving DecidableEq, Repr

/-- `qnc::http::Message`: classification, the three status-line fields, and
the header list in arrival order (names compare case-insensitively). -/
structure Message where
  type : MsgType
  status : List (List Nat)
  headers : List (List Nat × List Nat)
deriving DecidableEq, Repr

/-- The default-constructed `Message{}`. -/
def invalidMessage : Message := ⟨.Invalid, [], []⟩

/-- `QByteArray::split(' ')`: split at every blank, keeping empty fields. -/
def splitOnSpace (s : List Nat) : List (List Nat) := s.splitOn 32

/-- `Message::parseStatusLine`: trim, split on blanks; exactly three fields
are required; `HTTP/`-prefixed first field means Response, `HTTP/`-prefixed
last field means Request. -/
def parseStatusLine (line : List Nat) : Message :=
  match splitOnSpace (trimB line) with
  | [f0, f1, f2] =>
    if (strB "HTTP/").isPrefixOf f0 then ⟨.Response, [f0, f1, f2], []⟩
    else if (strB "HTTP/").isPrefixOf f2 then ⟨.Request, [f0, f1, f2], []⟩
    else invalidMessage
  | _ => invalidMessage

/-- `line.indexOf(':')` when it is positive: the split point of a header
line.  `none` when there is no colon or the colon is the first byte. -/
def colonSplit (line : List Nat) : Option Nat :=
  if 58 ∈ line then
    if 0 < line.indexOf 58 then some (line.indexOf 58) else none
  else none

/-- Append a continuation's trimmed content to the value of the last header
(`message.m_headers.last().second.append(trimmedLine)`). -/
def appendToLast : List (List Nat × List Nat) → List Nat → List (List Nat × List Nat)
  | [], _ => []
  | [(n, v)], ext => [(n, v ++ ext)]
  | h :: t, ext => h :: appendToLast t ext

/-- The header loop of `Message::parse(QIODevice*)`: read lines until none
is left or a blank line; a line starting with a space extends the last
header; otherwise a positive colon position starts a new header with
trimmed name and value; other lines are dropped with a warning.  Each
iteration consumes at least one byte, so fuel `s.length + 1` is enough. -/
def parseHeaders (fuel : Nat) (headers : List (List Nat × List Nat)) (s : List Nat) :
    List (List Nat × List Nat) :=
  match fuel with
  | 0 => headers
  | fuel + 1 =>
    match takeLine s with
    | none => headers
    | some (line, rest) =>
      if trimB line = [] then headers
      else if line.head? = some 32 then
        if headers = [] then parseHeaders fuel headers rest
        else parseHeaders fuel (appendToLast headers (trimB line)) rest
      else
        match colonSplit line with
        | some c =>
          parseHeaders fuel (headers ++ [(trimB (line.take c), trimB (line.drop (c + 1)))]) rest
        | none => parseHeaders fuel headers rest

/-- `Message::parse(const QByteArray&)`. -/
def Message.parse (data : List Nat) : Message :=
  match takeLine data with
  | none => invalidMessage
  | some (line, rest) =>
    let msg := parseStatusLine line
    if msg.type = .Invalid then invalidMessage
    else { msg with headers := parseHeaders (rest.length + 1) [] rest }

/-- `Message::protocol()`: last status field of a request, first of a
response, empty otherwise. -/
def Message.protocol (m : Message) : List Nat :=
  match m.type with
  | .Request => m.status.getLastD []
  | .Response => m.status.headD []
  | .Invalid => []

/-- `Message::verb()` = `statusField(Request, 0)`. -/
def Message.verb (m : Message) : List Nat :=
  if m.type = .Request then m.status.getD 0 [] else []

/-- `Message::resource()` = `statusField(Request, 1)`. -/
def Message.resource (m : Message) : List Nat :=
  if m.type = .Request then m.status.getD 1 [] else []

/-- `Message::statusCode()` = `core::parse<uint>(statusField(Response, 1))`. -/
def Message.statusCode (m : Message) : Option Nat :=
  toUIntQ (if m.type = .Response then m.status.getD 1 [] else [])

/-- `QByteArray{cacheControl}.replace(' ', {}).split(',')`: the
`Cache-Control` directive tokens `expiryDateTime` inspects. -/
def ccTokens (cacheControl : List Nat) : List (List Nat) :=
  (cacheControl.filter fun b => b ≠ 32).splitOn 44

/-- `qnc::http::expiryDateTime(cacheControl, expires, now)`.  Instants are
`Int` seconds; a null `QDateTime` is `none`.  HTTP date parsing
(`parseDateTime`, three RFC formats via `QLocale`) is an external
collaborator and is passed in as `parseDT`; it returns `none` for a failed
parse, which the C++ surfaces as an invalid `QDateTime`. -/
def expiryDateTime (parseDT : List Nat → Option Int) (cacheControl expires : List Nat)
    (now : Int) : Option Int :=
  let toks := ccTokens cacheControl
  if toks.any (fun t => ciEq t (strB "no-cache")) then some now
  else
    match toks.find? (fun t => ciStartsWith t (strB "max-age=")) with
    | some tok =>
      match toUIntQ (tok.drop 8) with
      | some n => some (now + n)
      | none => if expires ≠ [] then parseDT expires else none
    | none => if expires ≠ [] then parseDT expires else none

end qnc.http

namespace qnc.ssdp

open QNC qnc.http

/-- `QUrl::fromPercentEncoding` (external collaborator): decode `%XX`
escapes, leaving malformed escapes untouched. -/
def percentDecode : List Nat → List Nat
  | [] => []
  | 37 :: h1 :: h2 :: rest =>
    match hexDigit h1, hexDigit h2 with
    | some a, some b => (a * 16 + b) :: percentDecode rest
    | _, _ => 37 :: percentDecode (h1 :: h2 :: rest)
  | b :: rest => b :: percentDecode rest
where
  hexDigit (b : Nat) : Option Nat :=
    if 48 ≤ b ∧ b ≤ 57 then some (b - 48)
    else if 65 ≤ b ∧ b ≤ 70 then some (b - 55)
    else if 97 ≤ b ∧ b ≤ 102 then some (b - 87)
    else none

/-- `parseAlternativeLocations`: repeatedly take the text between the next
`<` and the following `>`; stop when either bracket is missing.  URLs are
modelled as their raw bytes (`QUrl::fromEncoded`). -/
def parseALFuel : Nat → List Nat → List (List Nat)
  | 0, _ => []
  | fuel + 1, text =>
    if 60 ∈ text then
      let afterLt := (text.dropWhile fun b => b ≠ 60).tail
      if 62 ∈ afterLt then
        (afterLt.takeWhile fun b => b ≠ 62)
          :: parseALFuel fuel ((afterLt.dropWhile fun b => b ≠ 62).tail)
      else []
    else []

/-- `parseAlternativeLocations` with the always-sufficient fuel. -/
def parseAlternativeLocations (text : List Nat) : List (List Nat) :=
  parseALFuel (text.length + 1) text

/-- `NotifyMessage::Type`. -/
inductive NotifyType
  | Invalid
  | Alive
  | ByeBye
deriving DecidableEq, Repr

/-- `qnc::ssdp::NotifyMessage`. -/
structure NotifyMessage where
  type : NotifyType
  serviceName : List Nat
  serviceType : List Nat
  locations : List (List Nat)
  altLocations : List (List Nat)
  expiry : Option Int
deriving DecidableEq, Repr

/-- The default-constructed `NotifyMessage{}` that every rejection path
returns. -/
def emptyNotify : NotifyMessage := ⟨.Invalid, [], [], [], [], none⟩

/-- The loop state of the header pass in `NotifyMessage::parse`: the record
under construction plus the `notifyType`, `cacheControl` and `expires`
locals. -/
structure NotifyAcc where
  response : NotifyMessage
  notifyType : List Nat
  cacheControl : List Nat
  expires : List Nat
deriving DecidableEq, Repr

/-- One header of the pass: the `else if` chain on the case-insensitive
header name. -/
def headerStep (acc : NotifyAcc) (h : List Nat × List Nat) : NotifyAcc :=
  if ciEq h.1 (strB "USN") then
    { acc with response := { acc.response with serviceName := percentDecode h.2 } }
  else if ciEq h.1 (strB "NT") then
    { acc with response := { acc.response with serviceType := percentDecode h.2 } }
  else if ciEq h.1 (strB "NTS") then { acc with notifyType := h.2 }
  else if ciEq h.1 (strB "Cache-Control") then { acc with cacheControl := h.2 }
  else if ciEq h.1 (strB "Expires") then { acc with expires := h.2 }
  else if ciEq h.1 (strB "Location") then
    { acc with response := { acc.response with
        locations := acc.response.locations ++ [h.2] } }
  else if ciEq h.1 (strB "AL") then
    { acc with response := { acc.response with
        altLocations := acc.response.altLocations ++ parseAlternativeLocations h.2 } }
  else acc

/-- `NotifyMessage::parse(data, now)`. -/
def NotifyMessage.parse (parseDT : List Nat → Option Int) (data : List Nat) (now : Int) :
    NotifyMessage :=
  let msg := Message.parse data
  if msg.type = .Invalid then emptyNotify
  else if msg.protocol ≠ strB "HTTP/1.1" then emptyNotify
  else if msg.type = .Request ∧ msg.verb = strB "M-SEARCH" then emptyNotify
  else if msg.type = .Request ∧ msg.verb ≠ strB "NOTIFY" then emptyNotify
  else if msg.type = .Request ∧ msg.resource ≠ strB "*" then emptyNotify
  else if msg.type = .Response ∧ msg.statusCode ≠ some 200 then emptyNotify
  else
    let acc := msg.headers.foldl headerStep ⟨emptyNotify, [], [], []⟩
    let typed : Option NotifyMessage :=
      if msg.type = .Request then
        if acc.notifyType = strB "ssdp:alive" then some { acc.response with type := .Alive }
        else if acc.notifyType = strB "ssdp:byebye" then some { acc.response with type := .ByeBye }
        else none
      else some { acc.response with type := .Alive }
    match typed with
    | none => emptyNotify
    | some r => { r with expiry := expiryDateTime parseDT acc.cacheControl acc.expires now }

/-- The observer events `Resolver::processDatagram` can emit. -/
inductive SsdpEvent
  | serviceFound (name type : List Nat) (locations altLocations : List (List Nat))
      (expiry : Option Int)
  | serviceLost (name : List Nat)
deriving DecidableEq, Repr

/-- `Resolver::processDatagram`: parse the datagram and emit the matching
event; an `Invalid` result emits nothing. -/
def processDatagram (parseDT : List Nat → Option Int) (data : List Nat) (now : Int) :
    Option SsdpEvent :=
  let r := NotifyMessage.parse parseDT data now
  match r.type with
  | .Alive => some (.serviceFound r.serviceName r.serviceType r.locations r.altLocations r.expiry)
  | .ByeBye => some (.serviceLost r.serviceName)
  | .Invalid => none

end qnc.ssdp

namespace qnc.http

/-- The `Cache-Control` value contains a `no-cache` directive: some
comma-separated token (after space removal) equals `no-cache` up to case. -/
def hasNoCacheToken (cc : List Nat) : Prop :=
  ∃ t ∈ ccTokens cc, ciEq t (strB "no-cache") = true

instance (cc : List Nat) : Decidable (hasNoCacheToken cc) := by
  unfold hasNoCacheToken
  exact List.decidableBEx _ _

/-- The `max-age=N` directive value: the first token with the (case
insensitive) prefix `max-age=`, its suffix parsed as a 32-bit decimal. -/
def maxAgeValue (cc : List Nat) : Option Nat :=
  ((ccTokens cc).find? fun t => ciStartsWith t (strB "max-age=")).bind
    fun t => toUIntQ (t.drop 8)

theorem expiryDateTime_of_noCache (pd : List Nat → Option Int) (cc e : List Nat)
    (now : Int) (h : hasNoCacheToken cc) :
    expiryDateTime pd cc e now = some now := by
  unfold expiryDateTime
  rw [if_pos (List.any_eq_true.mpr h)]

theorem expiryDateTime_of_maxAge (pd : List Nat → Option Int) (cc e : List Nat)
    (now : Int) (n : Nat) (hno : ¬ hasNoCacheToken cc) (hma : maxAgeValue cc = some n) :
    expiryDateTime pd cc e now = some (now + n) := by
  unfold expiryDateTime
  rw [if_neg fun hany => hno (List.any_eq_true.mp hany)]
  unfold maxAgeValue at hma
  cases hfind : (ccTokens cc).find? fun t => ciStartsWith t (strB "max-age=") with
  | none => rw [hfind] at hma; exact absurd hma (by simp)
  | some tok =>
    rw [hfind] at hma
    simp only [Option.some_bind] at hma
    dsimp only
    rw [hma]

theorem expiryDateTime_fallback (pd : List Nat → Option Int) (cc e : List Nat)
    (now : Int) (hno : ¬ hasNoCacheToken cc) (hma : maxAgeValue cc = none) :
    expiryDateTime pd cc e now = if e ≠ [] then pd e else none := by
  unfold expiryDateTime
  rw [if_neg fun hany => hno (List.any_eq_true.mp hany)]
  unfold maxAgeValue at hma
  cases hfind : (ccTokens cc).find? fun t => ciStartsWith t (strB "max-age=") with
  | none => rfl
  | some tok =>
    rw [hfind] at hma
    simp only [Option.some_bind] at hma
    dsimp only
    rw [hma]

end qnc.http

/-- C5: the expiry computed by `expiryDateTime` follows the precedence
no-cache → now; max-age=N → now + N; non-empty Expires → the parsed HTTP
date; otherwise the null instant — for every date parser, every pair of
header values and every instant. -/
theorem expiry_precedence (pd : List Nat → Option Int) (cc e : List Nat) (now : Int) :
    (qnc.http.hasNoCacheToken cc →
        qnc.http.expiryDateTime pd cc e now = some now) ∧
      (∀ n, ¬ qnc.http.hasNoCacheToken cc → qnc.http.maxAgeValue cc = some n →
        qnc.http.expiryDateTime pd cc e now = some (now + n)) ∧
      (¬ qnc.http.hasNoCacheToken cc → qnc.http.maxAgeValue cc = none → e ≠ [] →
        qnc.http.expiryDateTime pd cc e now = pd e) ∧
      (¬ qnc.http.hasNoCacheToken cc → qnc.http.maxAgeValue cc = none → e = [] →
        qnc.http.expiryDateTime pd cc e now = none) := by
  refine ⟨?_, ?_, ?_, ?_⟩
  · exact fun h => qnc.http.expiryDateTime_of_noCache pd cc e now h
  · exact fun n hno hma => qnc.http.expiryDateTime_of_maxAge pd cc e now n hno hma
  · intro hno hma hne
    rw [qnc.http.expiryDateTime_fallback pd cc e now hno hma, if_pos hne]
  · intro hno hma he
    rw [qnc.http.expiryDateTime_fallback pd cc e now hno hma, if_neg (by simp [he])]

/-- C5 (witness): the four precedence branches at concrete header values,
with the date parser fixed to return 42. -/
theorem expiry_precedence_witness :
    qnc.http.expiryDateTime (fun _ => some 42)
        (qnc.http.strB "max-age=5, no-cache") (qnc.http.strB "x") 100 = some 100 ∧
      qnc.http.expiryDateTime (fun _ => some 42)
        (qnc.http.strB "max-age=5") (qnc.http.strB "x") 100 = some 105 ∧
      qnc.http.expiryDateTime (fun _ => some 42)
        [] (qnc.http.strB "x") 100 = some 42 ∧
      qnc.http.expiryDateTime (fun _ => some 42) [] [] 100 = none := by
  refine ⟨?_, ?_, ?_, ?_⟩
  · exact (expiry_precedence (fun _ => some 42)
      (qnc.http.strB "max-age=5, no-cache") (qnc.http.strB "x") 100).1 (by decide)
  · exact (expiry_precedence (fun _ => some 42)
      (qnc.http.strB "max-age=5") (qnc.http.strB "x") 100).2.1 5 (by decide) (by decide)
  · exact (expiry_precedence (fun _ => some 42)
      [] (qnc.http.strB "x") 100).2.2.1 (by decide) (by decide) (by decide)
  · exact (expiry_precedence (fun _ => some 42) [] [] 100).2.2.2
      (by decide) (by decide) (by decide)

/-- C8: the expiry is monotone in `now` whenever the headers pin an
instant, equals `now + δ` under no-cache, and equals `now + maxAge + δ`
under max-age — for every date parser and every non-negative delay. -/
theorem expiry_monotone (pd : List Nat → Option Int) (cc e : List Nat)
    (now δ : Int) (hδ : 0 ≤ δ) :
    ((qnc.http.hasNoCacheToken cc ∨ (∃ n, qnc.http.maxAgeValue cc = some n) ∨
        (e ≠ [] ∧ (pd e).isSome)) →
      ∃ a b, qnc.http.expiryDateTime pd cc e (now + δ) = some a ∧
        qnc.http.expiryDateTime pd cc e now = some b ∧ b ≤ a) ∧
      (qnc.http.hasNoCacheToken cc →
        qnc.http.expiryDateTime pd cc e (now + δ) = some (now + δ)) ∧
      (∀ n, ¬ qnc.http.hasNoCacheToken cc → qnc.http.maxAgeValue cc = some n →
        qnc.http.expiryDateTime pd cc e (now + δ) = some (now + n + δ)) := by
  refine ⟨?_, ?_, ?_⟩
  · intro hfixed
    by_cases hnc : qnc.http.hasNoCacheToken cc
    · exact ⟨now + δ, now, qnc.http.expiryDateTime_of_noCache pd cc e _ hnc,
        qnc.http.expiryDateTime_of_noCache pd cc e _ hnc, by omega⟩
    · cases hma : qnc.http.maxAgeValue cc with
      | some n =>
        exact ⟨now + δ + n, now + n,
          qnc.http.expiryDateTime_of_maxAge pd cc e _ n hnc hma,
          qnc.http.expiryDateTime_of_maxAge pd cc e _ n hnc hma, by omega⟩
      | none =>
        rcases hfixed with h | ⟨n, hn⟩ | ⟨hne, hsome⟩
        · exact absurd h hnc
        · rw [hma] at hn; exact absurd hn (by simp)
        · obtain ⟨t, ht⟩ := Option.isSome_iff_exists.mp hsome
          refine ⟨t, t, ?_, ?_, le_refl t⟩
          · rw [qnc.http.expiryDateTime_fallback pd cc e _ hnc hma, if_pos hne, ht]
          · rw [qnc.http.expiryDateTime_fallback pd cc e _ hnc hma, if_pos hne, ht]
  · intro hnc
    exact qnc.http.expiryDateTime_of_noCache pd cc e _ hnc
  · intro n hnc hma
    rw [qnc.http.expiryDateTime_of_maxAge pd cc e _ n hnc hma]
    exact congrArg some (by omega)

/-- C8 (witness): monotonicity at δ = 7 for a max-age header, and the two
equality clauses at concrete values. -/
theorem expiry_monotone_witness :
    (∃ a b, qnc.http.expiryDateTime (fun _ => some 42)
          (qnc.http.strB "max-age=5") [] (100 + 7) = some a ∧
        qnc.http.expiryDateTime (fun _ => some 42)
          (qnc.http.strB "max-age=5") [] 100 = some b ∧ b ≤ a) ∧
      qnc.http.expiryDateTime (fun _ => some 42)
        (qnc.http.strB "no-cache") [] (100 + 7) = some (100 + 7) ∧
      qnc.http.expiryDateTime (fun _ => some 42)
        (qnc.http.strB "max-age=5") [] (100 + 7) = some (100 + 5 + 7) := by
  refine ⟨?_, ?_, ?_⟩
  · exact (expiry_monotone (fun _ => some 42) (qnc.http.strB "max-age=5") [] 100 7
      (by omega)).1 (Or.inr (Or.inl ⟨5, by decide⟩))
  · exact (expiry_monotone (fun _ => some 42) (qnc.http.strB "no-cache") [] 100 7
      (by omega)).2.1 (by decide)
  · exact (expiry_monotone (fun _ => some 42) (qnc.http.strB "max-age=5") [] 100 7
      (by omega)).2.2 5 (by decide) (by decide)

namespace qnc.http

theorem takeLine_append (l rest : List Nat) (hnl : 10 ∉ l) :
    takeLine (l ++ 10 :: rest) = some (l ++ [10], rest) := by
  induction l with
  | nil => simp [takeLine]
  | cons b t ih =>
    have hb : ¬ b = 10 := fun h => hnl (h ▸ List.mem_cons_self b t)
    have ih2 := ih fun h => hnl (List.mem_cons_of_mem b h)
    simp [takeLine, hb, ih2]

end qnc.http

/-- C7 (as amended): in the header loop of `Message::parse`, a non-blank
line beginning with a space extends the last header: its trimmed content is
appended to that header's value (part 1), and `Message::parse` of a
datagram with a valid status line runs exactly this loop on the remaining
bytes (part 4).  A line beginning with a tab is NOT a continuation: with no
colon at a positive offset it is dropped (part 2), and with one it starts a
new header whose name contains the tab (part 3). -/
theorem header_continuation (fuel : Nat) (acc : List (List Nat × List Nat))
    (l rest : List Nat) (hnl : 10 ∉ l)
    (htrim : qnc.http.trimB (l ++ [10]) ≠ []) :
    (l.head? = some 32 → acc ≠ [] →
        qnc.http.parseHeaders (fuel + 1) acc (l ++ 10 :: rest)
          = qnc.http.parseHeaders fuel
              (qnc.http.appendToLast acc (qnc.http.trimB (l ++ [10]))) rest) ∧
      (l.head? = some 9 → qnc.http.colonSplit (l ++ [10]) = none →
        qnc.http.parseHeaders (fuel + 1) acc (l ++ 10 :: rest)
          = qnc.http.parseHeaders fuel acc rest) ∧
      (∀ c, l.head? = some 9 → qnc.http.colonSplit (l ++ [10]) = some c →
        qnc.http.parseHeaders (fuel + 1) acc (l ++ 10 :: rest)
          = qnc.http.parseHeaders fuel
              (acc ++ [(qnc.http.trimB ((l ++ [10]).take c),
                        qnc.http.trimB ((l ++ [10]).drop (c + 1)))]) rest) ∧
      (∀ data line body, qnc.http.takeLine data = some (line, body) →
        (qnc.http.parseStatusLine line).type ≠ .Invalid →
        (qnc.http.Message.parse data).headers
          = qnc.http.parseHeaders (body.length + 1) [] body) := by
  have hline : ∀ x : Nat, l.head? = some x → (l ++ [10]).head? = some x := by
    intro x hx
    cases l with
    | nil => exact absurd hx (by simp)
    | cons a t => simpa using hx
  refine ⟨?_, ?_, ?_, ?_⟩
  · intro hhead hacc
    rw [show qnc.http.parseHeaders (fuel + 1) acc (l ++ 10 :: rest)
        = match qnc.http.takeLine (l ++ 10 :: rest) with
          | none => acc
          | some (line, rest') =>
            if qnc.http.trimB line = [] then acc
            else if line.head? = some 32 then
              if acc = [] then qnc.http.parseHeaders fuel acc rest'
              else qnc.http.parseHeaders fuel
                (qnc.http.appendToLast acc (qnc.http.trimB line)) rest'
            else
              match qnc.http.colonSplit line with
              | some c => qnc.http.parseHeaders fuel
                  (acc ++ [(qnc.http.trimB (line.take c),
                            qnc.http.trimB (line.drop (c + 1)))]) rest'
              | none => qnc.http.parseHeaders fuel acc rest' from rfl,
      qnc.http.takeLine_append l rest hnl]
    dsimp only
    rw [if_neg htrim, if_pos (hline 32 hhead), if_neg hacc]
  · intro hhead hcolon
    rw [show qnc.http.parseHeaders (fuel + 1) acc (l ++ 10 :: rest)
        = match qnc.http.takeLine (l ++ 10 :: rest) with
          | none => acc
          | some (line, rest') =>
            if qnc.http.trimB line = [] then acc
            else if line.head? = some 32 then
              if acc = [] then qnc.http.parseHeaders fuel acc rest'
              else qnc.http.parseHeaders fuel
                (qnc.http.appendToLast acc (qnc.http.trimB line)) rest'
            else
              match qnc.http.colonSplit line with
              | some c => qnc.http.parseHeaders fuel
                  (acc ++ [(qnc.http.trimB (line.take c),
                            qnc.http.trimB (line.drop (c + 1)))]) rest'
              | none => qnc.http.parseHeaders fuel acc rest' from rfl,
      qnc.http.takeLine_append l rest hnl]
    dsimp only
    rw [if_neg htrim, if_neg (by rw [hline 9 hhead]; decide), hcolon]
  · intro c hhead hcolon
    rw [show qnc.http.parseHeaders (fuel + 1) acc (l ++ 10 :: rest)
        = match qnc.http.takeLine (l ++ 10 :: rest) with
          | none => acc
          | some (line, rest') =>
            if qnc.http.trimB line = [] then acc
            else if line.head? = some 32 then
              if acc = [] then qnc.http.parseHeaders fuel acc rest'
              else qnc.http.parseHeaders fuel
                (qnc.http.appendToLast acc (qnc.http.trimB line)) rest'
            else
              match qnc.http.colonSplit line with
              | some c' => qnc.http.parseHeaders fuel
                  (acc ++ [(qnc.http.trimB (line.take c'),
                            qnc.http.trimB (line.drop (c' + 1)))]) rest'
              | none => qnc.http.parseHeaders fuel acc rest' from rfl,
      qnc.http.takeLine_append l rest hnl]
    dsimp only
    rw [if_neg htrim, if_neg (by rw [hline 9 hhead]; decide), hcolon]
  · intro data line body htake hvalid
    unfold qnc.http.Message.parse
    rw [htake]
    dsimp only
    rw [if_neg hvalid]

/-- C7 (witness): the continuation step applied concretely — a non-blank
line ` more␍␊` extends the pending header list `[(A, b)]`. -/
theorem header_continuation_witness :
    qnc.http.parseHeaders 2 [(qnc.http.strB "A", qnc.http.strB "b")]
        (qnc.http.strB " more\r" ++ 10 :: [])
      = qnc.http.parseHeaders 1
          (qnc.http.appendToLast [(qnc.http.strB "A", qnc.http.strB "b")]
            (qnc.http.trimB (qnc.http.strB " more\r" ++ [10]))) [] :=
  (header_continuation 1 [(qnc.http.strB "A", qnc.http.strB "b")]
      (qnc.http.strB " more\r") [] (by decide) (by decide)).1 (by decide) (by decide)

/-- C7 (counterexample): in an otherwise identical datagram, a header line
introduced by a TAB is not treated as a continuation: `␉more␍␊` is dropped
(no colon), leaving `val` unchanged, whereas the space-led variant ` more␍␊`
is appended, giving `valmore`. -/
theorem tab_continuation_dropped :
    (qnc.http.Message.parse
        (qnc.http.strB "HTTP/1.1 200 OK\r\nName: val\r\n\tmore\r\n\r\n")).headers
      = [(qnc.http.strB "Name", qnc.http.strB "val")] ∧
      (qnc.http.Message.parse
          (qnc.http.strB "HTTP/1.1 200 OK\r\nName: val\r\n more\r\n\r\n")).headers
        = [(qnc.http.strB "Name", qnc.http.strB "valmore")] ∧
      [(qnc.http.strB "Name", qnc.http.strB "val")]
        ≠ [(qnc.http.strB "Name", qnc.http.strB "valmore")] := by
  refine ⟨by decide, by decide, by decide⟩

namespace qnc.ssdp

open qnc.http

theorem ciEq_excl {a x y : List Nat} (hx : ciEq a x = true)
    (hne : x.map lowerB ≠ y.map lowerB) : ciEq a y = false := by
  cases hy : ciEq a y
  · rfl
  · exfalso
    apply hne
    have hax := of_decide_eq_true hx
    have hay := of_decide_eq_true hy
    rw [← hax, hay]

/-- `headerStep` in update form: each field of the accumulator changes
exactly when the header name matches its pattern (the seven patterns are
pairwise distinct up to case, so at most one branch of the `else if` chain
fires). -/
theorem headerStep_eq (acc : NotifyAcc) (h : List Nat × List Nat) :
    headerStep acc h =
      { response :=
          { type := acc.response.type,
            serviceName :=
              if ciEq h.1 (strB "USN") then percentDecode h.2 else acc.response.serviceName,
            serviceType :=
              if ciEq h.1 (strB "NT") then percentDecode h.2 else acc.response.serviceType,
            locations :=
              if ciEq h.1 (strB "Location") then acc.response.locations ++ [h.2]
              else acc.response.locations,
            altLocations :=
              if ciEq h.1 (strB "AL") then
                acc.response.altLocations ++ parseAlternativeLocations h.2
              else acc.response.altLocations,
            expiry := acc.response.expiry },
        notifyType := if ciEq h.1 (strB "NTS") then h.2 else acc.notifyType,
        cacheControl := if ciEq h.1 (strB "Cache-Control") then h.2 else acc.cacheControl,
        expires := if ciEq h.1 (strB "Expires") then h.2 else acc.expires } := by
  unfold headerStep
  by_cases h1 : ciEq h.1 (strB "USN") = true
  · have e2 := ciEq_excl h1 (show (strB "USN").map lowerB ≠ (strB "NT").map lowerB by decide)
    have e3 := ciEq_excl h1 (show (strB "USN").map lowerB ≠ (strB "NTS").map lowerB by decide)
    have e4 := ciEq_excl h1
      (show (strB "USN").map lowerB ≠ (strB "Cache-Control").map lowerB by decide)
    have e5 := ciEq_excl h1
      (show (strB "USN").map lowerB ≠ (strB "Expires").map lowerB by decide)
    have e6 := ciEq_excl h1
      (show (strB "USN").map lowerB ≠ (strB "Location").map lowerB by decide)
    have e7 := ciEq_excl h1 (show (strB "USN").map lowerB ≠ (strB "AL").map lowerB by decide)
    simp [h1, e2, e3, e4, e5, e6, e7]
  · by_cases h2 : ciEq h.1 (strB "NT") = true
    · have e3 := ciEq_excl h2 (show (strB "NT").map lowerB ≠ (strB "NTS").map lowerB by decide)
      have e4 := ciEq_excl h2
        (show (strB "NT").map lowerB ≠ (strB "Cache-Control").map lowerB by decide)
      have e5 := ciEq_excl h2
        (show (strB "NT").map lowerB ≠ (strB "Expires").map lowerB by decide)
      have e6 := ciEq_excl h2
        (show (strB "NT").map lowerB ≠ (strB "Location").map lowerB by decide)
      have e7 := ciEq_excl h2 (show (strB "NT").map lowerB ≠ (strB "AL").map lowerB by decide)
      simp [h1, h2, e3, e4, e5, e6, e7]
    · by_cases h3 : ciEq h.1 (strB "NTS") = true
      · have e4 := ciEq_excl h3
          (show (strB "NTS").map lowerB ≠ (strB "Cache-Control").map lowerB by decide)
        have e5 := ciEq_excl h3
          (show (strB "NTS").map lowerB ≠ (strB "Expires").map lowerB by decide)
        have e6 := ciEq_excl h3
          (show (strB "NTS").map lowerB ≠ (strB "Location").map lowerB by decide)
        have e7 := ciEq_excl h3
          (show (strB "NTS").map lowerB ≠ (strB "AL").map lowerB by decide)
        simp [h1, h2, h3, e4, e5, e6, e7]
      · by_cases h4 : ciEq h.1 (strB "Cache-Control") = true
        · have e5 := ciEq_excl h4
            (show (strB "Cache-Control").map lowerB ≠ (strB "Expires").map lowerB by decide)
          have e6 := ciEq_excl h4
            (show (strB "Cache-Control").map lowerB ≠ (strB "Location").map lowerB by decide)
          have e7 := ciEq_excl h4
            (show (strB "Cache-Control").map lowerB ≠ (strB "AL").map lowerB by decide)
          simp [h1, h2, h3, h4, e5, e6, e7]
        · by_cases h5 : ciEq h.1 (strB "Expires") = true
          · have e6 := ciEq_excl h5
              (show (strB "Expires").map lowerB ≠ (strB "Location").map lowerB by decide)
            have e7 := ciEq_excl h5
              (show (strB "Expires").map lowerB ≠ (strB "AL").map lowerB by decide)
            simp [h1, h2, h3, h4, h5, e6, e7]
          · by_cases h6 : ciEq h.1 (strB "Location") = true
            · have e7 := ciEq_excl h6
                (show (strB "Location").map lowerB ≠ (strB "AL").map lowerB by decide)
              simp [h1, h2, h3, h4, h5, h6, e7]
            · by_cases h7 : ciEq h.1 (strB "AL") = true
              · simp [h1, h2, h3, h4, h5, h6, h7]
              · simp [h1, h2, h3, h4, h5, h6, h7]

end qnc.ssdp

namespace qnc.ssdp

open qnc.http

/-- The value of the last header with the given (case-insensitive) name —
the value that wins in the assignment-style branches of the header pass. -/
def lastHeader (hs : List (List Nat × List Nat)) (name : List Nat) : Option (List Nat) :=
  hs.foldl (fun cur h => if ciEq h.1 name then some h.2 else cur) none

/-- The values of all headers with the given name, in arrival order — the
list that the appending branches (`Location`, `AL`) accumulate. -/
def headerValues (hs : List (List Nat × List Nat)) (name : List Nat) : List (List Nat) :=
  hs.foldl (fun cur h => if ciEq h.1 name then cur ++ [h.2] else cur) []

theorem lastHeader_shift (hs : List (List Nat × List Nat)) (name : List Nat) :
    ∀ c, hs.foldl (fun cur h => if ciEq h.1 name then some h.2 else cur) c
      = (lastHeader hs name).or c := by
  induction hs with
  | nil => intro c; simp [lastHeader]
  | cons h t ih =>
    intro c
    show t.foldl _ (if ciEq h.1 name then some h.2 else c) = _
    rw [ih]
    show _ = (t.foldl _ (if ciEq h.1 name then some h.2 else none)).or c
    rw [ih]
    by_cases hc : ciEq h.1 name = true
    · simp [hc, Option.or_assoc]
    · simp [hc, Option.or_assoc]

theorem lastHeader_cons (h : List Nat × List Nat) (t : List (List Nat × List Nat))
    (name : List Nat) :
    lastHeader (h :: t) name
      = (lastHeader t name).or (if ciEq h.1 name then some h.2 else none) := by
  show t.foldl _ (if ciEq h.1 name then some h.2 else none) = _
  rw [lastHeader_shift]

theorem headerValues_shift (hs : List (List Nat × List Nat)) (name : List Nat) :
    ∀ c, hs.foldl (fun cur h => if ciEq h.1 name then cur ++ [h.2] else cur) c
      = c ++ headerValues hs name := by
  induction hs with
  | nil => intro c; simp [headerValues]
  | cons h t ih =>
    intro c
    show t.foldl _ (if ciEq h.1 name then c ++ [h.2] else c) = _
    rw [ih]
    show _ = c ++ t.foldl _ (if ciEq h.1 name then [] ++ [h.2] else [])
    rw [ih]
    by_cases hc : ciEq h.1 name = true
    · simp [hc]
    · simp [hc]

theorem headerValues_cons (h : List Nat × List Nat) (t : List (List Nat × List Nat))
    (name : List Nat) :
    headerValues (h :: t) name
      = (if ciEq h.1 name then [h.2] else []) ++ headerValues t name := by
  show t.foldl _ (if ciEq h.1 name then [] ++ [h.2] else []) = _
  rw [headerValues_shift]
  by_cases hc : ciEq h.1 name = true
  · simp [hc]
  · simp [hc]

theorem or_getD (x y : Option (List Nat)) (d : List Nat) :
    (x.or y).getD d = x.getD (y.getD d) := by
  cases x <;> cases y <;> rfl

theorem or_map_getD (x y : Option (List Nat)) (f : List Nat → List Nat) (d : List Nat) :
    ((x.or y).map f).getD d = (x.map f).getD ((y.map f).getD d) := by
  cases x <;> cases y <;> rfl

/-- The header pass of `NotifyMessage::parse`, field by field: scalars keep
the last matching header's value, list fields append every matching
header's contribution in order, and the record's `type` and `expiry` are
untouched. -/
theorem headerFold_fields (hs : List (List Nat × List Nat)) :
    ∀ acc : NotifyAcc,
      (hs.foldl headerStep acc).notifyType
          = (lastHeader hs (strB "NTS")).getD acc.notifyType ∧
        (hs.foldl headerStep acc).cacheControl
          = (lastHeader hs (strB "Cache-Control")).getD acc.cacheControl ∧
        (hs.foldl headerStep acc).expires
          = (lastHeader hs (strB "Expires")).getD acc.expires ∧
        (hs.foldl headerStep acc).response.serviceName
          = ((lastHeader hs (strB "USN")).map percentDecode).getD acc.response.serviceName ∧
        (hs.foldl headerStep acc).response.serviceType
          = ((lastHeader hs (strB "NT")).map percentDecode).getD acc.response.serviceType ∧
        (hs.foldl headerStep acc).response.locations
          = acc.response.locations ++ headerValues hs (strB "Location") ∧
        (hs.foldl headerStep acc).response.altLocations
          = acc.response.altLocations
              ++ (headerValues hs (strB "AL")).flatMap parseAlternativeLocations ∧
        (hs.foldl headerStep acc).response.type = acc.response.type ∧
        (hs.foldl headerStep acc).response.expiry = acc.response.expiry := by
  induction hs with
  | nil =>
    intro acc
    refine ⟨rfl, rfl, rfl, rfl, rfl, by simp [headerValues], by simp [headerValues], rfl, rfl⟩
  | cons h t ih =>
    intro acc
    obtain ⟨i1, i2, i3, i4, i5, i6, i7, i8, i9⟩ := ih (headerStep acc h)
    have hstep := headerStep_eq acc h
    refine ⟨?_, ?_, ?_, ?_, ?_, ?_, ?_, ?_, ?_⟩
    · show (t.foldl headerStep (headerStep acc h)).notifyType = _
      rw [i1, lastHeader_cons, or_getD, hstep]
      by_cases hc : ciEq h.1 (strB "NTS") = true <;> simp [hc]
    · show (t.foldl headerStep (headerStep acc h)).cacheControl = _
      rw [i2, lastHeader_cons, or_getD, hstep]
      by_cases hc : ciEq h.1 (strB "Cache-Control") = true <;> simp [hc]
    · show (t.foldl headerStep (headerStep acc h)).expires = _
      rw [i3, lastHeader_cons, or_getD, hstep]
      by_cases hc : ciEq h.1 (strB "Expires") = true <;> simp [hc]
    · show (t.foldl headerStep (headerStep acc h)).response.serviceName = _
      rw [i4, lastHeader_cons, or_map_getD, hstep]
      by_cases hc : ciEq h.1 (strB "USN") = true <;> simp [hc]
    · show (t.foldl headerStep (headerStep acc h)).response.serviceType = _
      rw [i5, lastHeader_cons, or_map_getD, hstep]
      by_cases hc : ciEq h.1 (strB "NT") = true <;> simp [hc]
    · show (t.foldl headerStep (headerStep acc h)).response.locations = _
      rw [i6, headerValues_cons, hstep]
      by_cases hc : ciEq h.1 (strB "Location") = true <;> simp [hc]
    · show (t.foldl headerStep (headerStep acc h)).response.altLocations = _
      rw [i7, headerValues_cons, hstep]
      by_cases hc : ciEq h.1 (strB "AL") = true <;> simp [hc]
    · show (t.foldl headerStep (headerStep acc h)).response.type = _
      rw [i8, hstep]
    · show (t.foldl headerStep (headerStep acc h)).response.expiry = _
      rw [i9, hstep]

end qnc.ssdp

namespace qnc.ssdp

open qnc.http

/-- The initial accumulator of the header pass. -/
def initAcc : NotifyAcc := ⟨emptyNotify, [], [], []⟩

theorem notifyParse_of_invalid (pd : List Nat → Option Int) (data : List Nat) (now : Int)
    (hI : (Message.parse data).type = .Invalid) :
    NotifyMessage.parse pd data now = emptyNotify := by
  simp only [NotifyMessage.parse]
  rw [if_pos hI]

theorem notifyParse_of_protocol (pd : List Nat → Option Int) (data : List Nat) (now : Int)
    (hP : (Message.parse data).protocol ≠ strB "HTTP/1.1") :
    NotifyMessage.parse pd data now = emptyNotify := by
  simp only [NotifyMessage.parse]
  by_cases hI : (Message.parse data).type = .Invalid
  · rw [if_pos hI]
  · rw [if_neg hI, if_pos hP]

theorem notifyParse_of_bad_verb (pd : List Nat → Option Int) (data : List Nat) (now : Int)
    (hT : (Message.parse data).type = .Request)
    (hNV : (Message.parse data).verb ≠ strB "NOTIFY") :
    NotifyMessage.parse pd data now = emptyNotify := by
  simp only [NotifyMessage.parse]
  rw [if_neg (by rw [hT]; exact fun hc => absurd hc (by decide))]
  by_cases hP : (Message.parse data).protocol ≠ strB "HTTP/1.1"
  · rw [if_pos hP]
  · rw [if_neg hP]
    by_cases hMS : (Message.parse data).verb = strB "M-SEARCH"
    · rw [if_pos ⟨hT, hMS⟩]
    · rw [if_neg (fun hc => hMS hc.2), if_pos ⟨hT, hNV⟩]

theorem notifyParse_of_bad_resource (pd : List Nat → Option Int) (data : List Nat)
    (now : Int) (hT : (Message.parse data).type = .Request)
    (hNV : (Message.parse data).verb = strB "NOTIFY")
    (hR : (Message.parse data).resource ≠ strB "*") :
    NotifyMessage.parse pd data now = emptyNotify := by
  simp only [NotifyMessage.parse]
  rw [if_neg (by rw [hT]; exact fun hc => absurd hc (by decide))]
  by_cases hP : (Message.parse data).protocol ≠ strB "HTTP/1.1"
  · rw [if_pos hP]
  · rw [if_neg hP,
      if_neg (fun hc => absurd (hNV.symm.trans hc.2) (by decide)),
      if_neg (fun hc => hc.2 hNV), if_pos ⟨hT, hR⟩]

theorem notifyParse_of_bad_status (pd : List Nat → Option Int) (data : List Nat)
    (now : Int) (hT : (Message.parse data).type = .Response)
    (hS : (Message.parse data).statusCode ≠ some 200) :
    NotifyMessage.parse pd data now = emptyNotify := by
  simp only [NotifyMessage.parse]
  rw [if_neg (by rw [hT]; exact fun hc => absurd hc (by decide))]
  by_cases hP : (Message.parse data).protocol ≠ strB "HTTP/1.1"
  · rw [if_pos hP]
  · rw [if_neg hP,
      if_neg (fun hc => absurd (hT.symm.trans hc.1) (by decide)),
      if_neg (fun hc => absurd (hT.symm.trans hc.1) (by decide)),
      if_neg (fun hc => absurd (hT.symm.trans hc.1) (by decide)),
      if_pos ⟨hT, hS⟩]

theorem notifyParse_request_notify (pd : List Nat → Option Int) (data : List Nat)
    (now : Int) (hT : (Message.parse data).type = .Request)
    (hP : (Message.parse data).protocol = strB "HTTP/1.1")
    (hNV : (Message.parse data).verb = strB "NOTIFY")
    (hR : (Message.parse data).resource = strB "*") :
    NotifyMessage.parse pd data now =
      (let acc := (Message.parse data).headers.foldl headerStep initAcc
       if acc.notifyType = strB "ssdp:alive" then
         { acc.response with
           type := NotifyType.Alive
           expiry := expiryDateTime pd acc.cacheControl acc.expires now }
       else if acc.notifyType = strB "ssdp:byebye" then
         { acc.response with
           type := NotifyType.ByeBye
           expiry := expiryDateTime pd acc.cacheControl acc.expires now }
       else emptyNotify) := by
  simp only [NotifyMessage.parse, initAcc]
  rw [if_neg (by rw [hT]; exact fun hc => absurd hc (by decide)),
    if_neg (fun hc => hc hP),
    if_neg (fun hc => absurd (hNV.symm.trans hc.2) (by decide)),
    if_neg (fun hc => hc.2 hNV),
    if_neg (fun hc => hc.2 hR),
    if_neg (fun hc => absurd (hT.symm.trans hc.1) (by decide)),
    if_pos hT]
  by_cases hA : ((Message.parse data).headers.foldl headerStep
      ⟨emptyNotify, [], [], []⟩).notifyType = strB "ssdp:alive"
  · rw [if_pos hA, if_pos hA]
  · rw [if_neg hA, if_neg hA]
    by_cases hB : ((Message.parse data).headers.foldl headerStep
        ⟨emptyNotify, [], [], []⟩).notifyType = strB "ssdp:byebye"
    · rw [if_pos hB, if_pos hB]
    · rw [if_neg hB, if_neg hB]

theorem notifyParse_response_ok (pd : List Nat → Option Int) (data : List Nat)
    (now : Int) (hT : (Message.parse data).type = .Response)
    (hP : (Message.parse data).protocol = strB "HTTP/1.1")
    (hS : (Message.parse data).statusCode = some 200) :
    NotifyMessage.parse pd data now =
      (let acc := (Message.parse data).headers.foldl headerStep initAcc
       { acc.response with
         type := NotifyType.Alive
         expiry := expiryDateTime pd acc.cacheControl acc.expires now }) := by
  simp only [NotifyMessage.parse, initAcc]
  rw [if_neg (by rw [hT]; exact fun hc => absurd hc (by decide)),
    if_neg (fun hc => hc hP),
    if_neg (fun hc => absurd (hT.symm.trans hc.1) (by decide)),
    if_neg (fun hc => absurd (hT.symm.trans hc.1) (by decide)),
    if_neg (fun hc => absurd (hT.symm.trans hc.1) (by decide)),
    if_neg (fun hc => hc.2 hS),
    if_neg (by rw [hT]; exact fun hc => absurd hc (by decide))]

end qnc.ssdp

namespace qnc.ssdp

open qnc.http

/-- A NOTIFY request carrying `NTS: ssdp:alive` (last NTS header wins). -/
def aliveRequestCond (msg : Message) : Prop :=
  msg.type = .Request ∧ msg.protocol = strB "HTTP/1.1" ∧ msg.verb = strB "NOTIFY" ∧
    msg.resource = strB "*" ∧
    (lastHeader msg.headers (strB "NTS")).getD [] = strB "ssdp:alive"

/-- A NOTIFY request carrying `NTS: ssdp:byebye`. -/
def byeByeRequestCond (msg : Message) : Prop :=
  msg.type = .Request ∧ msg.protocol = strB "HTTP/1.1" ∧ msg.verb = strB "NOTIFY" ∧
    msg.resource = strB "*" ∧
    (lastHeader msg.headers (strB "NTS")).getD [] = strB "ssdp:byebye"

/-- An HTTP/1.1 response with status code 200. -/
def aliveResponseCond (msg : Message) : Prop :=
  msg.type = .Response ∧ msg.protocol = strB "HTTP/1.1" ∧ msg.statusCode = some 200

/-- The full classification statement of `NotifyMessage::parse` and
`Resolver::processDatagram`. -/
def notifyClaim (pd : List Nat → Option Int) (data : List Nat) (now : Int) : Prop :=
  ((NotifyMessage.parse pd data now).type = NotifyType.Alive ↔
      (aliveRequestCond (Message.parse data) ∨ aliveResponseCond (Message.parse data))) ∧
    ((NotifyMessage.parse pd data now).type = NotifyType.ByeBye ↔
      byeByeRequestCond (Message.parse data)) ∧
    ((NotifyMessage.parse pd data now).type ≠ NotifyType.Invalid →
      (NotifyMessage.parse pd data now).serviceName
          = ((lastHeader (Message.parse data).headers (strB "USN")).map percentDecode).getD [] ∧
        (NotifyMessage.parse pd data now).serviceType
          = ((lastHeader (Message.parse data).headers (strB "NT")).map percentDecode).getD [] ∧
        (NotifyMessage.parse pd data now).locations
          = headerValues (Message.parse data).headers (strB "Location") ∧
        (NotifyMessage.parse pd data now).altLocations
          = (headerValues (Message.parse data).headers (strB "AL")).flatMap
              parseAlternativeLocations ∧
        (NotifyMessage.parse pd data now).expiry
          = expiryDateTime pd
              ((lastHeader (Message.parse data).headers (strB "Cache-Control")).getD [])
              ((lastHeader (Message.parse data).headers (strB "Expires")).getD []) now) ∧
    ((NotifyMessage.parse pd data now).type = NotifyType.Invalid →
      processDatagram pd data now = none)

theorem notifyClaim_of_empty (pd : List Nat → Option Int) (data : List Nat) (now : Int)
    (he : NotifyMessage.parse pd data now = emptyNotify)
    (hreq : ¬ aliveRequestCond (Message.parse data))
    (hresp : ¬ aliveResponseCond (Message.parse data))
    (hbye : ¬ byeByeRequestCond (Message.parse data)) :
    notifyClaim pd data now := by
  unfold notifyClaim
  refine ⟨iff_of_false ?_ ?_, iff_of_false ?_ hbye, ?_, ?_⟩
  · rw [he]; decide
  · rintro (h | h)
    · exact hreq h
    · exact hresp h
  · rw [he]; decide
  · intro h
    rw [he] at h
    exact absurd rfl h
  · intro _
    unfold processDatagram
    rw [he]
    rfl

/-- C4: `NotifyMessage::parse` classifies exactly the HTTP/1.1 NOTIFY
requests with resource `*` and `NTS: ssdp:alive` — and the HTTP/1.1
responses with status 200 — as Alive, exactly the NOTIFY requests with
`NTS: ssdp:byebye` as ByeBye, and everything else as Invalid; a non-Invalid
result carries the USN and NT headers (percent-decoded) as service name and
type, the Location and AL headers as URL lists, and the cache headers'
expiry; an Invalid result makes `processDatagram` emit no event. -/
theorem notify_classification (pd : List Nat → Option Int) (data : List Nat) (now : Int) :
    notifyClaim pd data now := by
  obtain ⟨f1, f2, f3, f4, f5, f6, f7, f8, f9⟩ :=
    headerFold_fields (Message.parse data).headers initAcc
  by_cases hI : (Message.parse data).type = .Invalid
  · refine notifyClaim_of_empty pd data now (notifyParse_of_invalid pd data now hI) ?_ ?_ ?_
    · exact fun h => absurd (hI.symm.trans h.1) (by decide)
    · exact fun h => absurd (hI.symm.trans h.1) (by decide)
    · exact fun h => absurd (hI.symm.trans h.1) (by decide)
  · by_cases hP : (Message.parse data).protocol = strB "HTTP/1.1"
    · cases hT : (Message.parse data).type with
      | Invalid => exact absurd hT hI
      | Request =>
        by_cases hNV : (Message.parse data).verb = strB "NOTIFY"
        · by_cases hR : (Message.parse data).resource = strB "*"
          · have he := notifyParse_request_notify pd data now hT hP hNV hR
            by_cases hA : ((Message.parse data).headers.foldl headerStep
                initAcc).notifyType = strB "ssdp:alive"
            · have hval : NotifyMessage.parse pd data now
                  = { ((Message.parse data).headers.foldl headerStep initAcc).response with
                      type := NotifyType.Alive
                      expiry := expiryDateTime pd
                        ((Message.parse data).headers.foldl headerStep initAcc).cacheControl
                        ((Message.parse data).headers.foldl headerStep initAcc).expires
                        now } := by
                rw [he]
                dsimp only
                rw [if_pos hA]
              have hnts : (lastHeader (Message.parse data).headers (strB "NTS")).getD []
                  = strB "ssdp:alive" := f1.symm.trans hA
              unfold notifyClaim
              refine ⟨iff_of_true (by rw [hval]) (Or.inl ⟨hT, hP, hNV, hR, hnts⟩),
                iff_of_false (by intro hc; rw [hval] at hc; exact NotifyType.noConfusion hc) ?_, ?_, ?_⟩
              · rintro ⟨-, -, -, -, hb⟩
                exact absurd (hnts.symm.trans hb) (by decide)
              · intro _
                refine ⟨?_, ?_, ?_, ?_, ?_⟩
                · rw [hval]; exact f4
                · rw [hval]; exact f5
                · rw [hval]; exact f6
                · rw [hval]; exact f7
                · rw [hval]; dsimp only; rw [f2, f3]; rfl
              · intro h
                rw [hval] at h
                exact NotifyType.noConfusion h
            · by_cases hB : ((Message.parse data).headers.foldl headerStep
                  initAcc).notifyType = strB "ssdp:byebye"
              · have hval : NotifyMessage.parse pd data now
                    = { ((Message.parse data).headers.foldl headerStep initAcc).response with
                        type := NotifyType.ByeBye
                        expiry := expiryDateTime pd
                          ((Message.parse data).headers.foldl headerStep initAcc).cacheControl
                          ((Message.parse data).headers.foldl headerStep initAcc).expires
                          now } := by
                  rw [he]
                  dsimp only
                  rw [if_neg hA, if_pos hB]
                have hnts : (lastHeader (Message.parse data).headers (strB "NTS")).getD []
                    = strB "ssdp:byebye" := f1.symm.trans hB
                unfold notifyClaim
                refine ⟨iff_of_false (by intro hc; rw [hval] at hc; exact NotifyType.noConfusion hc) ?_,
                  iff_of_true (by rw [hval]) ⟨hT, hP, hNV, hR, hnts⟩, ?_, ?_⟩
                · rintro (⟨-, -, -, -, ha⟩ | hresp)
                  · exact absurd (hnts.symm.trans ha) (by decide)
                  · exact absurd (hT.symm.trans hresp.1) (by decide)
                · intro _
                  refine ⟨?_, ?_, ?_, ?_, ?_⟩
                  · rw [hval]; exact f4
                  · rw [hval]; exact f5
                  · rw [hval]; exact f6
                  · rw [hval]; exact f7
                  · rw [hval]; dsimp only; rw [f2, f3]; rfl
                · intro h
                  rw [hval] at h
                  exact NotifyType.noConfusion h
              · have hemp : NotifyMessage.parse pd data now = emptyNotify := by
                  rw [he]
                  dsimp only
                  rw [if_neg hA, if_neg hB]
                refine notifyClaim_of_empty pd data now hemp ?_ ?_ ?_
                · rintro ⟨-, -, -, -, ha⟩
                  exact hA (f1.trans ha)
                · exact fun h => absurd (hT.symm.trans h.1) (by decide)
                · rintro ⟨-, -, -, -, hb⟩
                  exact hB (f1.trans hb)
          · refine notifyClaim_of_empty pd data now
              (notifyParse_of_bad_resource pd data now hT hNV hR) ?_ ?_ ?_
            · exact fun h => hR h.2.2.2.1
            · exact fun h => absurd (hT.symm.trans h.1) (by decide)
            · exact fun h => hR h.2.2.2.1
        · refine notifyClaim_of_empty pd data now
            (notifyParse_of_bad_verb pd data now hT hNV) ?_ ?_ ?_
          · exact fun h => hNV h.2.2.1
          · exact fun h => absurd (hT.symm.trans h.1) (by decide)
          · exact fun h => hNV h.2.2.1
      | Response =>
        by_cases hS : (Message.parse data).statusCode = some 200
        · have he := notifyParse_response_ok pd data now hT hP hS
          have hval : NotifyMessage.parse pd data now
              = { ((Message.parse data).headers.foldl headerStep initAcc).response with
                  type := NotifyType.Alive
                  expiry := expiryDateTime pd
                    ((Message.parse data).headers.foldl headerStep initAcc).cacheControl
                    ((Message.parse data).headers.foldl headerStep initAcc).expires
                    now } := by
            rw [he]
          unfold notifyClaim
          refine ⟨iff_of_true (by rw [hval]) (Or.inr ⟨hT, hP, hS⟩),
            iff_of_false (by intro hc; rw [hval] at hc; exact NotifyType.noConfusion hc) ?_, ?_, ?_⟩
          · exact fun h => absurd (hT.symm.trans h.1) (by decide)
          · intro _
            refine ⟨?_, ?_, ?_, ?_, ?_⟩
            · rw [hval]; exact f4
            · rw [hval]; exact f5
            · rw [hval]; exact f6
            · rw [hval]; exact f7
            · rw [hval]; dsimp only; rw [f2, f3]; rfl
          · intro h
            rw [hval] at h
            exact NotifyType.noConfusion h
        · refine notifyClaim_of_empty pd data now
            (notifyParse_of_bad_status pd data now hT hS) ?_ ?_ ?_
          · exact fun h => absurd (hT.symm.trans h.1) (by decide)
          · exact fun h => hS h.2.2
          · exact fun h => absurd (hT.symm.trans h.1) (by decide)
    · refine notifyClaim_of_empty pd data now
        (notifyParse_of_protocol pd data now hP) ?_ ?_ ?_
      · exact fun h => hP h.2.1
      · exact fun h => hP h.2.1
      · exact fun h => hP h.2.1

end qnc.ssdp

/-- C4 (witness): the classification applied concretely — a NOTIFY request
with `NTS: ssdp:alive` parses as Alive, and a datagram that is not even an
HTTP message produces no event. -/
theorem notify_classification_witness :
    (qnc.ssdp.NotifyMessage.parse (fun _ => none)
        (qnc.http.strB "NOTIFY * HTTP/1.1\r\nNTS: ssdp:alive\r\nUSN: abc\r\n\r\n") 0).type
      = qnc.ssdp.NotifyType.Alive ∧
      qnc.ssdp.processDatagram (fun _ => none) (qnc.http.strB "junk") 0 = none := by
  constructor
  · exact (qnc.ssdp.notify_classification (fun _ => none)
      (qnc.http.strB "NOTIFY * HTTP/1.1\r\nNTS: ssdp:alive\r\nUSN: abc\r\n\r\n") 0).1.mpr
      (Or.inl ⟨by decide, by decide, by decide, by decide, by decide⟩)
  · exact (qnc.ssdp.notify_classification (fun _ => none)
      (qnc.http.strB "junk") 0).2.2.2 (by decide)
